import Mathlib

/-!
Verification development for the `websocket` repository: a shallow embedding
of the server-side connection registry (`WebsocketServer`), the room index,
the link abstraction (`SocketLink`), the per-connection lifecycle
(`SocketConnection`), the heartbeat sweep, the upgrade gate, and the
reconnecting client queue (`WebsocketNode` / `WebsocketBrowser`), together
with theorems settling the specification claims about them.

JavaScript `Map` objects are modelled as association lists in insertion
order; JavaScript `Set` objects as duplicate-free lists in insertion order.
Connections are JavaScript objects referenced by identity from the registry
and from room sets, so the embedding gives each connection an identity
(`CId`) and keeps the mutable per-connection fields in a heap
`CId -> ConnData`; room sets and the primary index store identities.
-/

namespace WS

/-- Identity of a connection object (JS object reference). -/
abbrev CId := Nat

section MapOps

variable {α : Type} {β : Type} [DecidableEq α]

/-- JS `Map.get`: value of the first binding of key `k`, if any. -/
def mapGet (m : List (α × β)) (k : α) : Option β :=
  (m.find? (fun p => p.1 = k)).map (fun p => p.2)

/-- JS `Map.set`: replace the binding of `k` in place if present, else append. -/
def mapSet (m : List (α × β)) (k : α) (v : β) : List (α × β) :=
  if (m.find? (fun p => p.1 = k)).isSome then
    m.map (fun p => if p.1 = k then (k, v) else p)
  else
    m ++ [(k, v)]

/-- JS `Map.delete`: remove the binding of `k`. -/
def mapDelete (m : List (α × β)) (k : α) : List (α × β) :=
  m.filter (fun p => ¬ p.1 = k)

/-- JS `Map.has`. -/
def mapHas (m : List (α × β)) (k : α) : Bool :=
  (mapGet m k).isSome

end MapOps

section SetOps

variable {α : Type} [DecidableEq α]

/-- JS `Set.add`: append if not already present. -/
def setAdd (s : List α) (x : α) : List α :=
  if x ∈ s then s else s ++ [x]

/-- JS `Set.delete`: remove the element. -/
def setDel (s : List α) (x : α) : List α :=
  s.filter (fun y => ¬ y = x)

end SetOps

/-- Mutable per-connection fields of `SocketConnection`
(`src/unnamed/part_001`): `uuid` (the current id, initially random and
rebindable by `setId`), `isAlive` (liveness flag, initially `true`), and
`rooms` (the local `Set<string>` of joined rooms). The `variables` map,
`query` and `authData` fields play no role in the registry/room claims and
are modelled separately where needed. -/
structure ConnData where
  uuid : String
  isAlive : Bool
  rooms : List String
  deriving Repr, DecidableEq

/-- State of the `WebsocketServer` registry
(`src/src/server/websocket-server.ts`): `socketClients` is the primary
index `Map<string, ISocketConnection>`, `rooms` is the room index
`Map<string, Set<ISocketConnection>>`, and `heap` resolves connection
identities to their mutable fields. -/
structure ServerState where
  socketClients : List (String × CId)
  rooms : List (String × List CId)
  heap : CId → ConnData

/-- Read a connection's current id (`this.uuid`). -/
def connUuid (st : ServerState) (c : CId) : String :=
  (st.heap c).uuid

/-- Read a connection's local room set (`this.rooms` / `getRooms()`). -/
def connRooms (st : ServerState) (c : CId) : List String :=
  (st.heap c).rooms

/-- Read a connection's liveness flag (`getAlive()`). -/
def connAlive (st : ServerState) (c : CId) : Bool :=
  (st.heap c).isAlive

/-- Update the heap cell of one connection. -/
def updateConn (st : ServerState) (c : CId) (f : ConnData → ConnData) : ServerState :=
  { st with heap := fun x => if x = c then f (st.heap x) else st.heap x }

/-- Members of a room in the index (empty if the room entry is absent). -/
def roomMembers (st : ServerState) (r : String) : List CId :=
  (mapGet st.rooms r).getD []

/-- `WebsocketServer.isExistRoom`: `this.rooms.has(room_id)`. -/
def isExistRoom (st : ServerState) (r : String) : Bool :=
  mapHas st.rooms r

/-- `WebsocketServer.toClients(...ids)`: build the (fresh) target set of the
link, skipping unknown ids. The link also captures `this.rooms` by
reference, which the embedding models by passing the state to link
operations. -/
def toClients (st : ServerState) (ids : List String) : List CId :=
  ids.foldl (fun acc id =>
    match mapGet st.socketClients id with
    | some c => setAdd acc c
    | none => acc) []

/-- `WebsocketServer.addClient`: `this.socketClients.set(client.getId(), client)`. -/
def addClient (st : ServerState) (c : CId) : ServerState :=
  { st with socketClients := mapSet st.socketClients (connUuid st c) c }

/-- `WebsocketServer.removeClient`: `this.socketClients.delete(client.getId())`. -/
def removeClient (st : ServerState) (c : CId) : ServerState :=
  { st with socketClients := mapDelete st.socketClients (connUuid st c) }

/-- `WebsocketServer.setClientId(newClientId, oldClientId)`: look up
`oldClientId`; if present, delete it and bind the connection under
`newClientId`; otherwise do nothing. -/
def setClientId (st : ServerState) (newClientId oldClientId : String) : ServerState :=
  match mapGet st.socketClients oldClientId with
  | some client =>
      { st with socketClients :=
          mapSet (mapDelete st.socketClients oldClientId) newClientId client }
  | none => st

/-- `SocketConnection.setId(id)`: the source calls
`this.wss.setClientId(this.uuid, id)` — passing the current uuid as the
first argument (`newClientId`) and the new id as the second
(`oldClientId`) — and then sets `this.uuid = id`. -/
def conn_setId (st : ServerState) (c : CId) (id : String) : ServerState :=
  let st1 := setClientId st (connUuid st c) id
  updateConn st1 c (fun d => { d with uuid := id })

/-- Room-mutation calls that can recur into each other:
`SocketConnection.join` calls `SocketLink.addClientToRoom`, which calls
`SocketConnection.join` back when the client's local room set lacks the
room. -/
inductive RoomCall
  | connJoin
  | linkAdd
  deriving Repr, DecidableEq

/-- Fueled interpreter of the `join` / `addClientToRoom` call pair.

`connJoin` is `SocketConnection.join(room_id)`: add `room_id` to the local
`rooms` set if absent, then `this.wss.toClients(this.uuid).addClientToRoom(this, room_id)`
(the link construction is effect-free and its target set is ignored by
`addClientToRoom`).

`linkAdd` is `SocketLink.addClientToRoom(client, roomId)`: create the room
entry if absent, add the client to the room's member set, then invoke
`client.join(roomId)` if the client's local room set lacks the room.

In the source the recursion terminates because `join` adds the room to the
local set before calling `addClientToRoom`; fuel 2 therefore always
suffices, and the exported operations use fuel 4. -/
def roomCallN : Nat → RoomCall → ServerState → CId → String → ServerState
  | 0, _, st, _, _ => st
  | n + 1, .connJoin, st, c, r =>
      let st1 :=
        if r ∈ connRooms st c then st
        else updateConn st c (fun d => { d with rooms := setAdd d.rooms r })
      roomCallN n .linkAdd st1 c r
  | n + 1, .linkAdd, st, c, r =>
      let st1 :=
        if mapHas st.rooms r then st
        else { st with rooms := mapSet st.rooms r [] }
      let st2 :=
        match mapGet st1.rooms r with
        | some s => { st1 with rooms := mapSet st1.rooms r (setAdd s c) }
        | none => st1
      if r ∈ connRooms st2 c then st2
      else roomCallN n .connJoin st2 c r

/-- `SocketConnection.join(room_id)`. -/
def conn_join (st : ServerState) (c : CId) (r : String) : ServerState :=
  roomCallN 4 .connJoin st c r

/-- `SocketLink.addClientToRoom(client, roomId)`. -/
def link_addClientToRoom (st : ServerState) (c : CId) (r : String) : ServerState :=
  roomCallN 4 .linkAdd st c r

/-- `SocketLink.removeClientInRoom(client, ...roomIds)`: for each room,
`this.rooms.get(roomId)?.delete(client)`, then delete the room entry when
`this.rooms.get(roomId)?.size === 0`. -/
def link_removeClientInRoom (st : ServerState) (c : CId) (roomIds : List String) : ServerState :=
  roomIds.foldl (fun st roomId =>
    let st1 :=
      match mapGet st.rooms roomId with
      | some s => { st with rooms := mapSet st.rooms roomId (setDel s c) }
      | none => st
    if mapGet st1.rooms roomId = some [] then
      { st1 with rooms := mapDelete st1.rooms roomId }
    else st1) st

/-- `SocketConnection.leave(room_id)`: delete the room from the local set if
present, then `this.wss.toClients(this.uuid).removeClientInRoom(this, room_id)`
(target set again ignored by `removeClientInRoom`). -/
def conn_leave (st : ServerState) (c : CId) (r : String) : ServerState :=
  let st1 :=
    if r ∈ connRooms st c then
      updateConn st c (fun d => { d with rooms := setDel d.rooms r })
    else st
  link_removeClientInRoom st1 c [r]

/-- `SocketLink.join(roomId)`: create the room entry if absent, then for
each target client whose local room set lacks the room, invoke
`client.join(roomId)`. -/
def link_join (st : ServerState) (targets : List CId) (r : String) : ServerState :=
  let st1 :=
    if mapHas st.rooms r then st
    else { st with rooms := mapSet st.rooms r [] }
  targets.foldl (fun st c =>
    if r ∈ connRooms st c then st else conn_join st c r) st1

/-- `SocketLink.leave(roomId)`: for each target, invoke `val.leave(roomId)`
then `this.rooms.get(roomId)?.delete(val)`. -/
def link_leave (st : ServerState) (targets : List CId) (r : String) : ServerState :=
  targets.foldl (fun st c =>
    let st1 := conn_leave st c r
    match mapGet st1.rooms r with
    | some s => { st1 with rooms := mapSet st1.rooms r (setDel s c) }
    | none => st1) st

/-- `WebsocketServer.clientClose(client)`: `removeClient(client)` then
`toClients(client.getId()).removeClientInRoom(client, ...client.getRooms())`
(the target set of the link is ignored by `removeClientInRoom`). -/
def clientClose (st : ServerState) (c : CId) : ServerState :=
  let st1 := removeClient st c
  link_removeClientInRoom st1 c (connRooms st1 c)

/-- `SocketConnection.close()`: closes the raw transport when open (a
transport-level effect outside the registry) and calls
`this.wss.clientClose(this)`. -/
def conn_close (st : ServerState) (c : CId) : ServerState :=
  clientClose st c

/-- One iteration of the room-teardown loop of the transport `close` and
`error` handlers in `SocketConnection.setEvent`:
`this.rooms.delete(room_id)` then
`this.wss.toClients(this.uuid).leave(room_id)` — this time the link's
target set matters, since `SocketLink.leave` iterates over it. -/
def teardownStep (c : CId) (st : ServerState) (room_id : String) : ServerState :=
  let st1 := updateConn st c (fun d => { d with rooms := setDel d.rooms room_id })
  link_leave st1 (toClients st1 [connUuid st1 c]) room_id

/-- Shared room-teardown loop of the transport `close` and `error` handlers
in `SocketConnection.setEvent`: iterate over (a snapshot of) the local
`rooms` set, running `teardownStep` for each room id. (JS `Set.forEach`
visits every originally-present element when the loop deletes only elements
it has already reached, so the snapshot iteration is faithful.) -/
def transportTeardownRooms (st : ServerState) (c : CId) : ServerState :=
  (connRooms st c).foldl (teardownStep c) st

/-- Transport `close` event handler (`ws.on('close', ...)`): run the room
teardown loop, then invoke the application close handler
(`this.handler.close?.(this)`); the returned flag records that the close
handler was invoked. The handler never touches `socketClients`. -/
def transportClose (st : ServerState) (c : CId) : ServerState × Bool :=
  (transportTeardownRooms st c, true)

/-- Transport `error` event handler (`ws.on('error', ...)`): the same room
teardown loop, with no close-handler invocation. -/
def transportError (st : ServerState) (c : CId) : ServerState × Bool :=
  (transportTeardownRooms st c, false)

/-- Transport `pong` event handler: `this.isAlive = true`. -/
def transportPong (st : ServerState) (c : CId) : ServerState :=
  updateConn st c (fun d => { d with isAlive := true })

/-- `SocketConnection.ping()`: set `isAlive = false`, then send a transport
ping and the literal text payload "ping" (transport effects outside the
registry). -/
def conn_ping (st : ServerState) (c : CId) : ServerState :=
  updateConn st c (fun d => { d with isAlive := false })

/-- Body of the heartbeat loop for one registered client: if
`getAlive() === false` then `client.close()` followed by
`this.toClients(client.getId()).close()` (whose target set is empty by
then, since `close` already removed the client from the index); otherwise
`client.ping()`. The accumulator carries the state and the list of clients
pinged so far. -/
def sweepStep (acc : ServerState × List CId) (c : CId) : ServerState × List CId :=
  let st := acc.1
  if connAlive st c = false then
    let st1 := conn_close st c
    let st2 := (toClients st1 [connUuid st1 c]).foldl (fun s t => conn_close s t) st1
    (st2, acc.2)
  else
    (conn_ping st c, acc.2 ++ [c])

/-- One tick of the heartbeat interval installed by
`WebsocketServer.connected` (fixed 60-second period):
`this.socketClients.forEach(client => ...)` with the body `sweepStep`.
Returns the final state and the list of clients that were sent a ping. The
surrounding `if (this.clients.size)` guard — the raw transport's client set
being nonempty — holds whenever a registered connection exists, and with no
registered connection the loop body is empty, so the sweep is modelled as
the loop itself. (JS `Map.forEach` visits every originally-present entry
when the loop deletes only the entry it is visiting, so the snapshot
iteration is faithful.) -/
def sweep (st : ServerState) : ServerState × List CId :=
  (st.socketClients.map (fun p => p.2)).foldl sweepStep (st, [])

/-- `WebsocketServer.toRooms(...room_ids)`: the accumulator `clients` starts
as the live `Set` stored in the index for the first room when that room
exists (`this.rooms.get(room_id) || new Set()` — JS assignment aliases the
stored object), so the `clients.add(val)` calls for members of the
remaining rooms mutate the index entry of the first room. When the first
room is absent (or there are no rooms), `clients` is a fresh set and the
index is untouched. Returns the link's target set and the resulting state. -/
def toRooms (st : ServerState) (room_ids : List String) : List CId × ServerState :=
  match room_ids with
  | [] => ([], st)
  | r1 :: rest =>
      match mapGet st.rooms r1 with
      | some _ =>
          let stF := rest.foldl (fun s rj =>
            match mapGet s.rooms rj with
            | some members =>
                members.foldl (fun s2 v =>
                  { s2 with rooms :=
                      mapSet s2.rooms r1 (setAdd ((mapGet s2.rooms r1).getD []) v) }) s
            | none => s) st
          (((mapGet stF.rooms r1).getD []), stF)
      | none =>
          let clients := rest.foldl (fun acc rj =>
            ((mapGet st.rooms rj).getD []).foldl setAdd acc) []
          (clients, st)

/-- One `clients.add(val)` of `toRooms` in the aliased case: since `clients`
is the live set stored at the first room, the add writes through to the
index entry of `r1`. -/
def toRoomsInnerStep (r1 : String) (s2 : ServerState) (v : CId) : ServerState :=
  { s2 with rooms := mapSet s2.rooms r1 (setAdd ((mapGet s2.rooms r1).getD []) v) }

/-- One non-first room of `toRooms` in the aliased case:
`this.rooms.get(room_id)?.forEach(val => clients.add(val))`. -/
def toRoomsOuterStep (r1 : String) (s : ServerState) (rj : String) : ServerState :=
  match mapGet s.rooms rj with
  | some members => members.foldl (toRoomsInnerStep r1) s
  | none => s

/-! ### Join/leave operation language and invariants -/

/-- A join or leave operation, invoked either on a connection itself
(`SocketConnection.join` / `leave`) or through a link
(`SocketLink.join` / `leave` / `addClientToRoom`); link targets are the
snapshot of connections the link was built over. -/
inductive JLOp
  | connJoin (c : CId) (r : String)
  | connLeave (c : CId) (r : String)
  | linkJoin (targets : List CId) (r : String)
  | linkLeave (targets : List CId) (r : String)
  | linkAdd (c : CId) (r : String)
  deriving Repr

/-- Apply one join/leave operation. -/
def applyOp (st : ServerState) : JLOp → ServerState
  | .connJoin c r => conn_join st c r
  | .connLeave c r => conn_leave st c r
  | .linkJoin ts r => link_join st ts r
  | .linkLeave ts r => link_leave st ts r
  | .linkAdd c r => link_addClientToRoom st c r

/-- Apply a sequence of join/leave operations. -/
def applyOps (st : ServerState) (ops : List JLOp) : ServerState :=
  ops.foldl applyOp st

/-- The two-index synchronisation invariant of the spec: a connection's
local `rooms` set equals the set of room names whose index entry contains
the connection. -/
def InSync (st : ServerState) : Prop :=
  ∀ c r, r ∈ connRooms st c ↔ c ∈ roomMembers st r

/-- No room entry in the index has an empty member set. -/
def NoEmptyRooms (st : ServerState) : Prop :=
  ∀ r s, mapGet st.rooms r = some s → s ≠ []

/-- Well-formedness of the primary index: every entry's key is its
connection's current uuid, and keys are distinct. -/
def WFsc (st : ServerState) : Prop :=
  (∀ p ∈ st.socketClients, (st.heap p.2).uuid = p.1) ∧
    (st.socketClients.map (fun p => p.1)).Nodup

/-- `n` heartbeat intervals in which connection `c` pongs within every
interval: each interval delivers the transport `pong` (setting `alive` to
true) and then the sweep runs. -/
def pongSweepIter (c : CId) : Nat → ServerState → ServerState
  | 0, st => st
  | n + 1, st => pongSweepIter c n (sweep (transportPong st c)).1

/-! ### Handler chain dispatch (`SocketConnection.onS`) -/

/-- Outcome of one application handler on one delivery: it either returns
normally or throws/rejects. -/
inductive HandlerOutcome
  | ok
  | throws
  deriving Repr, DecidableEq

/-- Observable result of delivering one event occurrence to a chain of
handlers registered by a single `onS(event, ...callbacks)` call: the
zero-based indices of the handlers that were invoked, in invocation order,
and the number of calls made to the application error handler. -/
structure ChainResult where
  invoked : List Nat
  errorCalls : Nat
  deriving Repr, DecidableEq

/-- The dispatch loop installed by `SocketConnection.onS`
(`src/unnamed/part_001` lines 189-199):
`for (const callback of callbacks) { try { await callback(data) } catch (error) { this.handler.error(error, this) } }`.
The try/catch sits inside the loop, so a throwing handler is reported to
the error handler and iteration proceeds to the next handler. The variant
in `src/unnamed/part_000` threads a `result` value through the chain but
has the identical control flow. -/
def dispatchChain (callbacks : List HandlerOutcome) : ChainResult :=
  (callbacks.foldl (fun acc h =>
    let res : ChainResult := acc.2
    (acc.1 + 1,
      { invoked := res.invoked ++ [acc.1]
        errorCalls := res.errorCalls + (match h with | .ok => 0 | .throws => 1) }))
    (0, ⟨[], 0⟩)).2

/-- Number of error-handler calls one handler outcome contributes. -/
def errorCost : HandlerOutcome → Nat
  | .ok => 0
  | .throws => 1

/-! ### Incoming-message dispatch (`SocketConnection.setEvent`, message handler) -/

/-- Result of the application-supplied custom message decoder
(`this.handler.message`) on one payload: an `{event, data}` pair, or a
throw. -/
inductive DecodeOutcome
  | msg (event : String) (data : String)
  | throws
  deriving Repr, DecidableEq

/-- Model of `JSON.parse(payload)` as seen by the dispatcher: a throw, a
falsy value (`null`), or an object with an optional `event` field (absent
or empty-string `event` is falsy) and a `data` field. -/
inductive ParsedJson
  | parseError
  | falsy
  | obj (event : Option String) (data : String)
  deriving Repr, DecidableEq

/-- Observable outcome of the `message` event handler for one payload. -/
inductive MessageResult
  | aliveSet
  | emit (event : String) (data : String)
  | errorHandled
  deriving Repr, DecidableEq

/-- The `message` event handler of `SocketConnection.setEvent`
(`src/unnamed/part_001` lines 147-172). The literal payload "pong" is
checked first and short-circuits to `this.isAlive = true`; only then is the
custom decoder (`this.handler.message`) consulted; otherwise the payload is
parsed as a JSON envelope, with a thrown error for an unparseable or falsy
payload or a falsy `event` field routed to the application error handler.
`parse` abstracts `JSON.parse` on the payload. -/
def handleMessage (decoder : Option (String → DecodeOutcome))
    (parse : String → ParsedJson) (payload : String) : MessageResult :=
  if payload = "pong" then .aliveSet
  else
    match decoder with
    | some d =>
        match d payload with
        | .msg e dat => .emit e dat
        | .throws => .errorHandled
    | none =>
        match parse payload with
        | .parseError => .errorHandled
        | .falsy => .errorHandled
        | .obj none _ => .errorHandled
        | .obj (some e) dat => if e = "" then .errorHandled else .emit e dat

/-! ### Upgrade gate (`WebsocketServer.attachServer` / `connected`) -/

/-- Outcome of the configured authenticator `this.auth(req)`: a thrown
error / rejected promise, or a boolean validity verdict. -/
inductive AuthOutcome
  | throws
  | value (isValid : Bool)
  deriving Repr, DecidableEq

/-- What ends up in the `authData` slot of the created
`SocketConnection`. The `connection` listener in
`WebsocketServer.connected` calls the constructor as
`new SocketConnection(ws, this, query, { error, message, close })`, so with
the five-parameter constructor of `src/unnamed/part_001`
(`ws, wss, query, authData, handler`) the fourth argument — the handler
bundle — lands in `authData`; no value derived from the authenticator is
ever passed. -/
inductive AuthDataVal
  | handlerBundle
  | fromAuth (isValid : Bool)
  deriving Repr, DecidableEq

/-- Result of the `upgrade` listener for one request: an unauthorized
response (`HTTP/1.1 401 Unauthorized` written, socket destroyed, no
connection created), or the emitted `connection` event, which carries
exactly two payload values: the raw transport and the parsed query
(`this.emit('connection', ws, url_parse.query)`). -/
inductive UpgradeResult
  | unauthorized
  | connectionEvent (transport : CId) (query : String)
  deriving Repr, DecidableEq

/-- The `upgrade` listener installed by `WebsocketServer.attachServer`
(lines 70-91): when an authenticator is configured, await it; a thrown
error or a falsy return yields the 401 response and socket destruction;
otherwise parse the request url's query and complete the upgrade, emitting
the `connection` event with the transport and the parsed query.
`parseQuery` abstracts `url.parse(req.url, true).query`. -/
def upgradeHandler (auth : Option (String → AuthOutcome))
    (parseQuery : String → String) (reqUrl : String) (transport : CId) : UpgradeResult :=
  match auth with
  | some a =>
      match a reqUrl with
      | .throws => .unauthorized
      | .value false => .unauthorized
      | .value true => .connectionEvent transport (parseQuery reqUrl)
  | none => .connectionEvent transport (parseQuery reqUrl)

/-- The fields of the `SocketConnection` built by the `connection` listener
of `WebsocketServer.connected` that the upgrade-gate claim observes. -/
structure CreatedConn where
  transport : CId
  query : String
  authData : AuthDataVal
  deriving Repr, DecidableEq

/-- The `connection` listener of `WebsocketServer.connected` (lines
101-108): build a `SocketConnection` from the event's transport and query;
the `authData` constructor slot receives the handler bundle
(`{ error, message, close }`), independent of the authenticator. -/
def connectedHandler (transport : CId) (query : String) : CreatedConn :=
  { transport := transport, query := query, authData := .handlerBundle }

/-- `getAuthData()` of the created connection (`return this.authData`). -/
def getAuthData (c : CreatedConn) : AuthDataVal :=
  c.authData

/-! ### Reconnecting client queue (`WebsocketNode` / `WebsocketBrowser`) -/

/-- The wire envelope `{event, data}` queued by the clients. -/
structure WSMessage where
  event : String
  data : Nat
  deriving Repr, DecidableEq

/-- `addToQueue(message)` of both clients (`node.client.ts` lines 197-203,
`browser.client.ts` lines 169-175): when
`messageQueue.length >= maxQueueSize`, `shift()` evicts the oldest entry;
then `push(message)` appends the new one. -/
def addToQueue (maxQueueSize : Nat) (q : List WSMessage) (m : WSMessage) : List WSMessage :=
  (if maxQueueSize ≤ q.length then q.tail else q) ++ [m]

/-- `flushMessageQueue()` (browser variant, lines 180-198; the node variant
differs only in reporting send errors through an asynchronous callback):
while the queue is nonempty, `shift()` the head and send it; a send that
throws puts the message back at the head (`unshift`) and stops. `sendOk`
abstracts whether the transport write succeeds. Returns the messages sent
in order and the remaining queue. -/
def flushMessageQueue (sendOk : WSMessage → Bool) :
    List WSMessage → List WSMessage × List WSMessage
  | [] => ([], [])
  | m :: rest =>
      if sendOk m then
        let res := flushMessageQueue sendOk rest
        (m :: res.1, res.2)
      else
        ([], m :: rest)

/-! ### Concrete example states -/

/-- A registry holding one freshly created connection (identity 0) with
generated id "a", alive, and in no rooms. -/
def exSt1 : ServerState :=
  { socketClients := [("a", 0)]
    rooms := []
    heap := fun c => if c = 0 then ⟨"a", true, []⟩ else ⟨"z", true, []⟩ }

/-- A registry holding one connection (identity 0) with id "a", alive, and
in room "r" on both indexes. -/
def exStW : ServerState :=
  { socketClients := [("a", 0)]
    rooms := [("r", [0])]
    heap := fun c => if c = 0 then ⟨"a", true, ["r"]⟩ else ⟨"z", true, []⟩ }

/-- A registry with two connections: 0 (id "a") whose `alive` flag is
false, and 1 (id "b") whose `alive` flag is true; no rooms. -/
def exSt2 : ServerState :=
  { socketClients := [("a", 0), ("b", 1)]
    rooms := []
    heap := fun c =>
      if c = 0 then ⟨"a", false, []⟩
      else if c = 1 then ⟨"b", true, []⟩
      else ⟨"z", true, []⟩ }

/-- A registry with connection 0 (id "a") in room "ra" and connection 1
(id "b") in room "rb". -/
def exSt3 : ServerState :=
  { socketClients := [("a", 0), ("b", 1)]
    rooms := [("ra", [0]), ("rb", [1])]
    heap := fun c =>
      if c = 0 then ⟨"a", true, ["ra"]⟩
      else if c = 1 then ⟨"b", true, ["rb"]⟩
      else ⟨"z", true, []⟩ }

/-! ### One-pass forms of the room-mutating operations

The fueled interpreter `roomCallN` terminates after at most one recursive
call, so each exported operation equals a one-pass composition of the
following building blocks (proved below in the characterisation lemmas). -/

/-- `if (!this.rooms.has(roomId)) this.rooms.set(roomId, new Set())`. -/
def ensureRoomIdx (st : ServerState) (r : String) : ServerState :=
  if mapHas st.rooms r then st else { st with rooms := mapSet st.rooms r [] }

/-- The local half of `SocketConnection.join`:
`if (!this.rooms.has(room_id)) this.rooms.add(room_id)`. -/
def joinLocal (st : ServerState) (c : CId) (r : String) : ServerState :=
  if r ∈ connRooms st c then st
  else updateConn st c (fun d => { d with rooms := setAdd d.rooms r })

/-- The index half of `SocketLink.addClientToRoom`: ensure the room entry
exists, then `this.rooms.get(roomId)?.add(client)`. -/
def linkAddCore (st : ServerState) (c : CId) (r : String) : ServerState :=
  let st1 := ensureRoomIdx st r
  match mapGet st1.rooms r with
  | some s => { st1 with rooms := mapSet st1.rooms r (setAdd s c) }
  | none => st1

/-- The local half of `SocketConnection.leave`:
`if (this.rooms.has(room_id)) this.rooms.delete(room_id)`. -/
def leaveLocal (st : ServerState) (c : CId) (r : String) : ServerState :=
  if r ∈ connRooms st c then
    updateConn st c (fun d => { d with rooms := setDel d.rooms r })
  else st

/-- One room of `SocketLink.removeClientInRoom`:
`this.rooms.get(roomId)?.delete(client)`, then delete the room entry when
its member set became empty. -/
def removeCore (st : ServerState) (c : CId) (r : String) : ServerState :=
  let st1 :=
    match mapGet st.rooms r with
    | some s => { st with rooms := mapSet st.rooms r (setDel s c) }
    | none => st
  if mapGet st1.rooms r = some [] then
    { st1 with rooms := mapDelete st1.rooms r }
  else st1

/-- The trailing `this.rooms.get(roomId)?.delete(val)` of `SocketLink.leave`. -/
def extDel (st : ServerState) (c : CId) (r : String) : ServerState :=
  match mapGet st.rooms r with
  | some s => { st with rooms := mapSet st.rooms r (setDel s c) }
  | none => st

/-! ### Lemmas about the map and set primitives -/

section MapLemmas

variable {α β : Type} [DecidableEq α]

theorem mapGet_cons (p : α × β) (m : List (α × β)) (k : α) :
    mapGet (p :: m) k = if p.1 = k then some p.2 else mapGet m k := by
  by_cases h : p.1 = k
  · simp [mapGet, List.find?, h]
  · simp [mapGet, List.find?, h]

theorem mapGet_append_right (m m2 : List (α × β)) (k : α)
    (h : mapGet m k = none) : mapGet (m ++ m2) k = mapGet m2 k := by
  induction m with
  | nil => simp
  | cons p m ih =>
      rw [List.cons_append, mapGet_cons]
      rw [mapGet_cons] at h
      by_cases hp : p.1 = k
      · simp [hp] at h
      · simp only [hp, if_false] at h ⊢
        exact ih h

theorem mapGet_isSome_of_find? (m : List (α × β)) (k : α)
    (h : (m.find? (fun p => p.1 = k)).isSome = false) : mapGet m k = none := by
  unfold mapGet
  cases hf : m.find? (fun p => p.1 = k) with
  | none => rfl
  | some p => rw [hf] at h; simp at h

theorem mapGet_mapSet_self (m : List (α × β)) (k : α) (v : β) :
    mapGet (mapSet m k v) k = some v := by
  unfold mapSet
  cases hs : (m.find? (fun p => p.1 = k)).isSome with
  | false =>
      simp only [hs, Bool.false_eq_true, if_false]
      rw [mapGet_append_right _ _ _ (mapGet_isSome_of_find? m k hs)]
      simp [mapGet_cons]
  | true =>
      simp only [hs, if_true]
      induction m with
      | nil => simp [List.find?] at hs
      | cons p m ih =>
          by_cases hp : p.1 = k
          · simp [mapGet_cons, hp]
          · simp only [List.map_cons, hp, if_false]
            rw [mapGet_cons]
            simp only [hp, if_false]
            apply ih
            rw [List.find?_cons] at hs
            have hd : decide (p.1 = k) = false := by simp [hp]
            rw [hd] at hs
            exact hs

theorem mapGet_append_single_ne (m : List (α × β)) (k k2 : α) (v : β) (h : k2 ≠ k) :
    mapGet (m ++ [(k, v)]) k2 = mapGet m k2 := by
  induction m with
  | nil => simp [mapGet, List.find?, Ne.symm h]
  | cons p m ih =>
      rw [List.cons_append, mapGet_cons, mapGet_cons]
      by_cases hp : p.1 = k2
      · simp [hp]
      · simp only [hp, if_false]
        exact ih

theorem mapGet_map_rewriteKey (m : List (α × β)) (k k2 : α) (v : β) (h : k2 ≠ k) :
    mapGet (m.map (fun p => if p.1 = k then (k, v) else p)) k2 = mapGet m k2 := by
  induction m with
  | nil => simp
  | cons p m ih =>
      rw [List.map_cons, mapGet_cons, mapGet_cons]
      by_cases hp : p.1 = k
      · have hk2 : ¬ (if p.1 = k then (k, v) else p).1 = k2 := by
          simp only [hp, if_true]
          exact fun hh => h hh.symm
        have hpk2 : ¬ p.1 = k2 := by rw [hp]; exact fun hh => h hh.symm
        simp only [hk2, if_false, hpk2]
        exact ih
      · have : (if p.1 = k then (k, v) else p) = p := by simp [hp]
        rw [this]
        by_cases hp2 : p.1 = k2
        · simp [hp2]
        · simp only [hp2, if_false]
          exact ih

theorem mapGet_mapSet_ne (m : List (α × β)) (k k2 : α) (v : β) (h : k2 ≠ k) :
    mapGet (mapSet m k v) k2 = mapGet m k2 := by
  unfold mapSet
  cases (m.find? (fun p => p.1 = k)).isSome with
  | false =>
      simp only [Bool.false_eq_true, if_false]
      exact mapGet_append_single_ne m k k2 v h
  | true =>
      simp only [if_true]
      exact mapGet_map_rewriteKey m k k2 v h

theorem mapGet_mapDelete_self (m : List (α × β)) (k : α) :
    mapGet (mapDelete m k) k = none := by
  induction m with
  | nil => rfl
  | cons p m ih =>
      unfold mapDelete
      rw [List.filter_cons]
      by_cases hp : p.1 = k
      · rw [if_neg (by simp [hp])]
        exact ih
      · rw [if_pos (by simp [hp]), mapGet_cons]
        simp only [hp, if_false]
        exact ih

theorem mapGet_mapDelete_ne (m : List (α × β)) (k k2 : α) (h : k2 ≠ k) :
    mapGet (mapDelete m k) k2 = mapGet m k2 := by
  induction m with
  | nil => rfl
  | cons p m ih =>
      unfold mapDelete
      rw [List.filter_cons]
      by_cases hp : p.1 = k
      · have hpk2 : ¬ p.1 = k2 := by rw [hp]; exact fun hh => h hh.symm
        rw [if_neg (by simp [hp]), mapGet_cons]
        simp only [hpk2, if_false]
        exact ih
      · rw [if_pos (by simp [hp]), mapGet_cons, mapGet_cons]
        by_cases hp2 : p.1 = k2
        · simp [hp2]
        · simp only [hp2, if_false]
          exact ih

end MapLemmas

section SetLemmas

variable {α : Type} [DecidableEq α]

theorem mem_setAdd (s : List α) (x y : α) : y ∈ setAdd s x ↔ y ∈ s ∨ y = x := by
  unfold setAdd
  by_cases h : x ∈ s
  · simp only [h, if_true]
    constructor
    · exact Or.inl
    · rintro (hy | rfl)
      · exact hy
      · exact h
  · simp [h]

theorem mem_setAdd_self (s : List α) (x : α) : x ∈ setAdd s x := by
  rw [mem_setAdd]; exact Or.inr rfl

theorem mem_setAdd_of_mem (s : List α) (x y : α) (h : y ∈ s) : y ∈ setAdd s x := by
  rw [mem_setAdd]; exact Or.inl h

theorem setAdd_ne_nil (s : List α) (x : α) : setAdd s x ≠ [] := by
  intro h
  have := mem_setAdd_self s x
  rw [h] at this
  exact List.not_mem_nil x this

theorem setAdd_of_mem (s : List α) (x : α) (h : x ∈ s) : setAdd s x = s := by
  simp [setAdd, h]

theorem mem_setDel (s : List α) (x y : α) : y ∈ setDel s x ↔ y ∈ s ∧ y ≠ x := by
  simp [setDel, List.mem_filter]

theorem not_mem_setDel_self (s : List α) (x : α) : x ∉ setDel s x := by
  rw [mem_setDel]; rintro ⟨-, h⟩; exact h rfl

theorem setDel_of_not_mem (s : List α) (x : α) (h : x ∉ s) : setDel s x = s := by
  unfold setDel
  apply List.filter_eq_self.mpr
  intro y hy
  simp only [decide_eq_true_eq]
  intro hyx
  exact h (hyx ▸ hy)

end SetLemmas

/-! ### State projection lemmas -/

section ProjLemmas

@[simp] theorem heap_withRooms (st : ServerState) (x : List (String × List CId)) :
    ({ st with rooms := x } : ServerState).heap = st.heap := rfl

@[simp] theorem socketClients_withRooms (st : ServerState) (x : List (String × List CId)) :
    ({ st with rooms := x } : ServerState).socketClients = st.socketClients := rfl

@[simp] theorem rooms_updateConn (st : ServerState) (c : CId) (f : ConnData → ConnData) :
    (updateConn st c f).rooms = st.rooms := rfl

@[simp] theorem socketClients_updateConn (st : ServerState) (c : CId) (f : ConnData → ConnData) :
    (updateConn st c f).socketClients = st.socketClients := rfl

@[simp] theorem connRooms_withRooms (st : ServerState) (x : List (String × List CId)) (c : CId) :
    connRooms { st with rooms := x } c = connRooms st c := rfl

@[simp] theorem connUuid_withRooms (st : ServerState) (x : List (String × List CId)) (c : CId) :
    connUuid { st with rooms := x } c = connUuid st c := rfl

@[simp] theorem connAlive_withRooms (st : ServerState) (x : List (String × List CId)) (c : CId) :
    connAlive { st with rooms := x } c = connAlive st c := rfl

theorem connRooms_updateConn_self (st : ServerState) (c : CId) (f : ConnData → ConnData) :
    connRooms (updateConn st c f) c = (f (st.heap c)).rooms := by
  simp [connRooms, updateConn]

theorem connRooms_updateConn_ne (st : ServerState) (c c2 : CId) (f : ConnData → ConnData)
    (h : c2 ≠ c) : connRooms (updateConn st c f) c2 = connRooms st c2 := by
  simp [connRooms, updateConn, h]

theorem roomMembers_withRooms (st : ServerState) (x : List (String × List CId)) (r : String) :
    roomMembers { st with rooms := x } r = (mapGet x r).getD [] := rfl

@[simp] theorem rooms_withRooms (st : ServerState) (x : List (String × List CId)) :
    ({ st with rooms := x } : ServerState).rooms = x := rfl

end ProjLemmas

/-! ### Characterisation of the room-mutating operations -/

section CharLemmas

theorem roomCallN_linkAdd_of_mem (n : Nat) (st : ServerState) (c : CId) (r : String)
    (h : r ∈ connRooms st c) :
    roomCallN (n + 1) .linkAdd st c r = linkAddCore st c r := by
  have key : ∀ st2 : ServerState, st2.heap = st.heap →
      (if r ∈ connRooms st2 c then st2 else roomCallN n .connJoin st2 c r) = st2 := by
    intro st2 hh
    rw [if_pos]
    show r ∈ connRooms st2 c
    unfold connRooms at h ⊢
    rw [hh]
    exact h
  rw [roomCallN]
  unfold linkAddCore ensureRoomIdx
  by_cases h1 : mapHas st.rooms r
  · simp only [h1, if_true]
    cases hm : mapGet st.rooms r with
    | some s => simp only [hm]; exact key _ rfl
    | none => simp only [hm]; exact key _ rfl
  · simp only [h1, Bool.false_eq_true, if_false, rooms_withRooms]
    cases hm : mapGet (mapSet st.rooms r []) r with
    | some s => simp only [hm]; exact key _ rfl
    | none => simp only [hm]; exact key _ rfl

theorem connRooms_joinLocal_self (st : ServerState) (c : CId) (r : String) :
    connRooms (joinLocal st c r) c = setAdd (connRooms st c) r := by
  unfold joinLocal
  by_cases h : r ∈ connRooms st c
  · rw [if_pos h, setAdd_of_mem _ _ h]
  · rw [if_neg h, connRooms_updateConn_self]
    rfl

theorem conn_join_eq (st : ServerState) (c : CId) (r : String) :
    conn_join st c r = linkAddCore (joinLocal st c r) c r := by
  have h2 : r ∈ connRooms (joinLocal st c r) c := by
    rw [connRooms_joinLocal_self]
    exact mem_setAdd_self _ _
  calc conn_join st c r = roomCallN 3 .linkAdd (joinLocal st c r) c r := rfl
    _ = linkAddCore (joinLocal st c r) c r := roomCallN_linkAdd_of_mem 2 _ c r h2

theorem connRooms_linkAddCore (st : ServerState) (c : CId) (r : String) (x : CId) :
    connRooms (linkAddCore st c r) x = connRooms st x := by
  unfold linkAddCore ensureRoomIdx
  by_cases h1 : mapHas st.rooms r
  · simp only [h1, if_true]
    cases hm : mapGet st.rooms r <;> simp [hm]
  · simp only [h1, Bool.false_eq_true, if_false, rooms_withRooms]
    cases hm : mapGet (mapSet st.rooms r []) r <;> simp [hm]

theorem connUuid_linkAddCore (st : ServerState) (c : CId) (r : String) (x : CId) :
    connUuid (linkAddCore st c r) x = connUuid st x := by
  unfold linkAddCore ensureRoomIdx
  by_cases h1 : mapHas st.rooms r
  · simp only [h1, if_true]
    cases hm : mapGet st.rooms r <;> simp [hm]
  · simp only [h1, Bool.false_eq_true, if_false, rooms_withRooms]
    cases hm : mapGet (mapSet st.rooms r []) r <;> simp [hm]

theorem connAlive_linkAddCore (st : ServerState) (c : CId) (r : String) (x : CId) :
    connAlive (linkAddCore st c r) x = connAlive st x := by
  unfold linkAddCore ensureRoomIdx
  by_cases h1 : mapHas st.rooms r
  · simp only [h1, if_true]
    cases hm : mapGet st.rooms r <;> simp [hm]
  · simp only [h1, Bool.false_eq_true, if_false, rooms_withRooms]
    cases hm : mapGet (mapSet st.rooms r []) r <;> simp [hm]

theorem socketClients_linkAddCore (st : ServerState) (c : CId) (r : String) :
    (linkAddCore st c r).socketClients = st.socketClients := by
  unfold linkAddCore ensureRoomIdx
  by_cases h1 : mapHas st.rooms r
  · simp only [h1, if_true]
    cases hm : mapGet st.rooms r <;> simp [hm]
  · simp only [h1, Bool.false_eq_true, if_false, rooms_withRooms]
    cases hm : mapGet (mapSet st.rooms r []) r <;> simp [hm]

theorem mapGet_linkAddCore_self (st : ServerState) (c : CId) (r : String) :
    mapGet (linkAddCore st c r).rooms r = some (setAdd (roomMembers st r) c) := by
  unfold linkAddCore ensureRoomIdx
  by_cases h1 : mapHas st.rooms r
  · cases hm : mapGet st.rooms r with
    | some s =>
        simp only [h1, if_true, hm, rooms_withRooms]
        rw [mapGet_mapSet_self]
        unfold roomMembers
        rw [hm]
        rfl
    | none => exact absurd h1 (by simp [mapHas, hm])
  · have hnone : mapGet st.rooms r = none := by
      unfold mapHas at h1
      exact Option.not_isSome_iff_eq_none.mp (by simpa using h1)
    simp only [h1, Bool.false_eq_true, if_false, rooms_withRooms]
    rw [mapGet_mapSet_self]
    simp only []
    rw [mapGet_mapSet_self]
    unfold roomMembers
    rw [hnone]
    rfl

theorem roomMembers_linkAddCore_self (st : ServerState) (c : CId) (r : String) :
    roomMembers (linkAddCore st c r) r = setAdd (roomMembers st r) c := by
  unfold roomMembers
  rw [mapGet_linkAddCore_self]
  rfl

theorem mapGet_linkAddCore_ne (st : ServerState) (c : CId) (r r2 : String) (h : r2 ≠ r) :
    mapGet (linkAddCore st c r).rooms r2 = mapGet st.rooms r2 := by
  unfold linkAddCore ensureRoomIdx
  by_cases h1 : mapHas st.rooms r
  · simp only [h1, if_true]
    cases hm : mapGet st.rooms r with
    | some s => simp only [hm, rooms_withRooms]; exact mapGet_mapSet_ne _ _ _ _ h
    | none => simp [hm]
  · simp only [h1, Bool.false_eq_true, if_false, rooms_withRooms]
    cases hm : mapGet (mapSet st.rooms r []) r with
    | some s =>
        simp only [hm, rooms_withRooms]
        rw [mapGet_mapSet_ne _ _ _ _ h, mapGet_mapSet_ne _ _ _ _ h]
    | none => simp only [hm]; exact mapGet_mapSet_ne _ _ _ _ h

theorem roomMembers_linkAddCore_ne (st : ServerState) (c : CId) (r r2 : String) (h : r2 ≠ r) :
    roomMembers (linkAddCore st c r) r2 = roomMembers st r2 := by
  unfold roomMembers
  rw [mapGet_linkAddCore_ne _ _ _ _ h]

theorem link_addClientToRoom_eq (st : ServerState) (c : CId) (r : String) :
    link_addClientToRoom st c r =
      if r ∈ connRooms st c then linkAddCore st c r
      else linkAddCore (updateConn (linkAddCore st c r) c
        (fun d => { d with rooms := setAdd d.rooms r })) c r := by
  have step1 : link_addClientToRoom st c r =
      if r ∈ connRooms (linkAddCore st c r) c then linkAddCore st c r
      else roomCallN 3 .connJoin (linkAddCore st c r) c r := rfl
  rw [step1, connRooms_linkAddCore]
  by_cases h : r ∈ connRooms st c
  · rw [if_pos h, if_pos h]
  · rw [if_neg h, if_neg h]
    have h2 : r ∉ connRooms (linkAddCore st c r) c := by
      rw [connRooms_linkAddCore]; exact h
    have e1 : roomCallN 3 .connJoin (linkAddCore st c r) c r =
        roomCallN 2 .linkAdd (joinLocal (linkAddCore st c r) c r) c r := rfl
    rw [e1]
    have h3 : r ∈ connRooms (joinLocal (linkAddCore st c r) c r) c := by
      rw [connRooms_joinLocal_self]; exact mem_setAdd_self _ _
    rw [roomCallN_linkAdd_of_mem 1 _ c r h3]
    unfold joinLocal
    rw [if_neg h2]

theorem rooms_joinLocal (st : ServerState) (c : CId) (r : String) :
    (joinLocal st c r).rooms = st.rooms := by
  unfold joinLocal; split <;> rfl

theorem socketClients_joinLocal (st : ServerState) (c : CId) (r : String) :
    (joinLocal st c r).socketClients = st.socketClients := by
  unfold joinLocal; split <;> rfl

theorem connRooms_joinLocal_ne (st : ServerState) (c : CId) (r : String) (x : CId)
    (h : x ≠ c) : connRooms (joinLocal st c r) x = connRooms st x := by
  unfold joinLocal
  split
  · rfl
  · exact connRooms_updateConn_ne st c x _ h

theorem connUuid_joinLocal (st : ServerState) (c : CId) (r : String) (x : CId) :
    connUuid (joinLocal st c r) x = connUuid st x := by
  unfold joinLocal
  split
  · rfl
  · unfold connUuid updateConn
    by_cases hx : x = c <;> simp [hx]

theorem connAlive_joinLocal (st : ServerState) (c : CId) (r : String) (x : CId) :
    connAlive (joinLocal st c r) x = connAlive st x := by
  unfold joinLocal
  split
  · rfl
  · unfold connAlive updateConn
    by_cases hx : x = c <;> simp [hx]

theorem rooms_leaveLocal (st : ServerState) (c : CId) (r : String) :
    (leaveLocal st c r).rooms = st.rooms := by
  unfold leaveLocal; split <;> rfl

theorem socketClients_leaveLocal (st : ServerState) (c : CId) (r : String) :
    (leaveLocal st c r).socketClients = st.socketClients := by
  unfold leaveLocal; split <;> rfl

theorem connRooms_leaveLocal_self (st : ServerState) (c : CId) (r : String) :
    connRooms (leaveLocal st c r) c = setDel (connRooms st c) r := by
  unfold leaveLocal
  by_cases h : r ∈ connRooms st c
  · rw [if_pos h, connRooms_updateConn_self]
    rfl
  · rw [if_neg h, setDel_of_not_mem _ _ h]

theorem connRooms_leaveLocal_ne (st : ServerState) (c : CId) (r : String) (x : CId)
    (h : x ≠ c) : connRooms (leaveLocal st c r) x = connRooms st x := by
  unfold leaveLocal
  split
  · exact connRooms_updateConn_ne st c x _ h
  · rfl

theorem connUuid_leaveLocal (st : ServerState) (c : CId) (r : String) (x : CId) :
    connUuid (leaveLocal st c r) x = connUuid st x := by
  unfold leaveLocal
  split
  · unfold connUuid updateConn
    by_cases hx : x = c <;> simp [hx]
  · rfl

theorem connAlive_leaveLocal (st : ServerState) (c : CId) (r : String) (x : CId) :
    connAlive (leaveLocal st c r) x = connAlive st x := by
  unfold leaveLocal
  split
  · unfold connAlive updateConn
    by_cases hx : x = c <;> simp [hx]
  · rfl

theorem heap_removeCore (st : ServerState) (c : CId) (r : String) :
    (removeCore st c r).heap = st.heap := by
  unfold removeCore
  cases hm : mapGet st.rooms r <;> simp only [hm] <;> split <;> rfl

theorem socketClients_removeCore (st : ServerState) (c : CId) (r : String) :
    (removeCore st c r).socketClients = st.socketClients := by
  unfold removeCore
  cases hm : mapGet st.rooms r <;> simp only [hm] <;> split <;> rfl

theorem connRooms_removeCore (st : ServerState) (c : CId) (r : String) (x : CId) :
    connRooms (removeCore st c r) x = connRooms st x := by
  unfold connRooms
  rw [heap_removeCore]

theorem connUuid_removeCore (st : ServerState) (c : CId) (r : String) (x : CId) :
    connUuid (removeCore st c r) x = connUuid st x := by
  unfold connUuid
  rw [heap_removeCore]

theorem roomMembers_removeCore_self (st : ServerState) (c : CId) (r : String) :
    roomMembers (removeCore st c r) r = setDel (roomMembers st r) c := by
  unfold removeCore
  cases hm : mapGet st.rooms r with
  | some s =>
      simp only [hm]
      have hget : mapGet (mapSet st.rooms r (setDel s c)) r = some (setDel s c) :=
        mapGet_mapSet_self _ _ _
      by_cases hnil : setDel s c = []
      · rw [if_pos (by rw [rooms_withRooms, hget, hnil])]
        unfold roomMembers
        rw [rooms_withRooms, rooms_withRooms, mapGet_mapDelete_self, hm]
        simp [hnil]
      · rw [if_neg (by rw [rooms_withRooms, hget]; simp [hnil])]
        unfold roomMembers
        rw [rooms_withRooms, hget, hm]
        rfl
  | none =>
      simp only [hm]
      rw [if_neg (by simp)]
      unfold roomMembers
      rw [hm]
      rfl

theorem mapGet_removeCore_ne (st : ServerState) (c : CId) (r r2 : String) (h : r2 ≠ r) :
    mapGet (removeCore st c r).rooms r2 = mapGet st.rooms r2 := by
  unfold removeCore
  cases hm : mapGet st.rooms r with
  | some s =>
      simp only [hm]
      split
      · rw [rooms_withRooms, rooms_withRooms, mapGet_mapDelete_ne _ _ _ h,
          mapGet_mapSet_ne _ _ _ _ h]
      · rw [rooms_withRooms, mapGet_mapSet_ne _ _ _ _ h]
  | none =>
      simp only [hm]
      split
      · rw [rooms_withRooms, mapGet_mapDelete_ne _ _ _ h]
      · rfl

theorem roomMembers_removeCore_ne (st : ServerState) (c : CId) (r r2 : String) (h : r2 ≠ r) :
    roomMembers (removeCore st c r) r2 = roomMembers st r2 := by
  unfold roomMembers
  rw [mapGet_removeCore_ne _ _ _ _ h]

theorem mapGet_removeCore_self_ne_nil (st : ServerState) (c : CId) (r : String) :
    mapGet (removeCore st c r).rooms r ≠ some [] := by
  unfold removeCore
  cases hm : mapGet st.rooms r with
  | some s =>
      simp only [hm]
      have hget : mapGet (mapSet st.rooms r (setDel s c)) r = some (setDel s c) :=
        mapGet_mapSet_self _ _ _
      by_cases hnil : setDel s c = []
      · rw [if_pos (by rw [rooms_withRooms, hget, hnil])]
        rw [rooms_withRooms, mapGet_mapDelete_self]
        simp
      · rw [if_neg (by rw [rooms_withRooms, hget]; simp [hnil])]
        rw [rooms_withRooms, hget]
        simp [hnil]
  | none =>
      simp only [hm]
      rw [if_neg (by simp)]
      rw [hm]
      simp

theorem heap_extDel (st : ServerState) (c : CId) (r : String) :
    (extDel st c r).heap = st.heap := by
  unfold extDel
  cases hm : mapGet st.rooms r <;> simp [hm]

theorem socketClients_extDel (st : ServerState) (c : CId) (r : String) :
    (extDel st c r).socketClients = st.socketClients := by
  unfold extDel
  cases hm : mapGet st.rooms r <;> simp [hm]

theorem connRooms_extDel (st : ServerState) (c : CId) (r : String) (x : CId) :
    connRooms (extDel st c r) x = connRooms st x := by
  unfold connRooms
  rw [heap_extDel]

theorem roomMembers_extDel_self (st : ServerState) (c : CId) (r : String) :
    roomMembers (extDel st c r) r = setDel (roomMembers st r) c := by
  unfold extDel
  cases hm : mapGet st.rooms r with
  | some s =>
      simp only [hm]
      unfold roomMembers
      rw [rooms_withRooms, mapGet_mapSet_self, hm]
      rfl
  | none =>
      simp only [hm]
      unfold roomMembers
      rw [hm]
      rfl

theorem mapGet_extDel_ne (st : ServerState) (c : CId) (r r2 : String) (h : r2 ≠ r) :
    mapGet (extDel st c r).rooms r2 = mapGet st.rooms r2 := by
  unfold extDel
  cases hm : mapGet st.rooms r with
  | some s =>
      simp only [hm]
      rw [rooms_withRooms, mapGet_mapSet_ne _ _ _ _ h]
  | none => simp [hm]

theorem roomMembers_extDel_ne (st : ServerState) (c : CId) (r r2 : String) (h : r2 ≠ r) :
    roomMembers (extDel st c r) r2 = roomMembers st r2 := by
  unfold roomMembers
  rw [mapGet_extDel_ne _ _ _ _ h]

theorem conn_leave_eq (st : ServerState) (c : CId) (r : String) :
    conn_leave st c r = removeCore (leaveLocal st c r) c r := rfl

theorem link_leave_eq (st : ServerState) (ts : List CId) (r : String) :
    link_leave st ts r = ts.foldl (fun st c => extDel (conn_leave st c r) c r) st := rfl

theorem link_join_eq (st : ServerState) (ts : List CId) (r : String) :
    link_join st ts r =
      ts.foldl (fun st x => if r ∈ connRooms st x then st else conn_join st x r)
        (ensureRoomIdx st r) := rfl

theorem link_removeClientInRoom_eq (st : ServerState) (c : CId) (roomIds : List String) :
    link_removeClientInRoom st c roomIds =
      roomIds.foldl (fun st r => removeCore st c r) st := rfl

theorem clientClose_eq (st : ServerState) (c : CId) :
    clientClose st c =
      link_removeClientInRoom (removeClient st c) c (connRooms (removeClient st c) c) := rfl

end CharLemmas

/-! ### Preservation of the two-index synchronisation invariant -/

section InSyncLemmas

theorem setAdd_setAdd_self {α : Type} [DecidableEq α] (s : List α) (x : α) :
    setAdd (setAdd s x) x = setAdd s x :=
  setAdd_of_mem _ _ (mem_setAdd_self s x)

theorem insync_join_shape (st st2 : ServerState) (c : CId) (r : String)
    (h1 : connRooms st2 c = setAdd (connRooms st c) r)
    (h2 : ∀ x, x ≠ c → connRooms st2 x = connRooms st x)
    (h3 : roomMembers st2 r = setAdd (roomMembers st r) c)
    (h4 : ∀ r2, r2 ≠ r → roomMembers st2 r2 = roomMembers st r2)
    (hInv : InSync st) : InSync st2 := by
  intro x r2
  by_cases hx : x = c <;> by_cases hr : r2 = r
  · subst hx; subst hr
    rw [h1, h3]
    exact ⟨fun _ => mem_setAdd_self _ _, fun _ => mem_setAdd_self _ _⟩
  · subst hx
    rw [h1, h4 _ hr, mem_setAdd]
    constructor
    · rintro (hmem | rfl)
      · exact (hInv x r2).mp hmem
      · exact absurd rfl hr
    · intro hmem
      exact Or.inl ((hInv x r2).mpr hmem)
  · subst hr
    rw [h2 _ hx, h3, mem_setAdd]
    constructor
    · intro hmem
      exact Or.inl ((hInv x r2).mp hmem)
    · rintro (hmem | rfl)
      · exact (hInv x r2).mpr hmem
      · exact absurd rfl hx
  · rw [h2 _ hx, h4 _ hr]
    exact hInv x r2

theorem insync_leave_shape (st st2 : ServerState) (c : CId) (r : String)
    (h1 : connRooms st2 c = setDel (connRooms st c) r)
    (h2 : ∀ x, x ≠ c → connRooms st2 x = connRooms st x)
    (h3 : roomMembers st2 r = setDel (roomMembers st r) c)
    (h4 : ∀ r2, r2 ≠ r → roomMembers st2 r2 = roomMembers st r2)
    (hInv : InSync st) : InSync st2 := by
  intro x r2
  by_cases hx : x = c <;> by_cases hr : r2 = r
  · subst hx; subst hr
    rw [h1, h3]
    constructor
    · intro hmem
      exact absurd hmem (not_mem_setDel_self _ _)
    · intro hmem
      exact absurd hmem (not_mem_setDel_self _ _)
  · subst hx
    rw [h1, h4 _ hr, mem_setDel]
    constructor
    · rintro ⟨hmem, -⟩
      exact (hInv x r2).mp hmem
    · intro hmem
      exact ⟨(hInv x r2).mpr hmem, hr⟩
  · subst hr
    rw [h2 _ hx, h3, mem_setDel]
    constructor
    · intro hmem
      exact ⟨(hInv x r2).mp hmem, hx⟩
    · rintro ⟨hmem, -⟩
      exact (hInv x r2).mpr hmem
  · rw [h2 _ hx, h4 _ hr]
    exact hInv x r2

theorem roomMembers_joinLocal (st : ServerState) (c : CId) (r r2 : String) :
    roomMembers (joinLocal st c r) r2 = roomMembers st r2 := by
  unfold roomMembers
  rw [rooms_joinLocal]

theorem roomMembers_leaveLocal (st : ServerState) (c : CId) (r r2 : String) :
    roomMembers (leaveLocal st c r) r2 = roomMembers st r2 := by
  unfold roomMembers
  rw [rooms_leaveLocal]

theorem insync_conn_join (st : ServerState) (c : CId) (r : String)
    (h : InSync st) : InSync (conn_join st c r) := by
  apply insync_join_shape st _ c r _ _ _ _ h
  · rw [conn_join_eq, connRooms_linkAddCore, connRooms_joinLocal_self]
  · intro x hx
    rw [conn_join_eq, connRooms_linkAddCore, connRooms_joinLocal_ne _ _ _ _ hx]
  · rw [conn_join_eq, roomMembers_linkAddCore_self, roomMembers_joinLocal]
  · intro r2 hr2
    rw [conn_join_eq, roomMembers_linkAddCore_ne _ _ _ _ hr2, roomMembers_joinLocal]

theorem connRooms_linkAdd_self (st : ServerState) (c : CId) (r : String) :
    connRooms (link_addClientToRoom st c r) c = setAdd (connRooms st c) r := by
  rw [link_addClientToRoom_eq]
  by_cases h : r ∈ connRooms st c
  · rw [if_pos h, connRooms_linkAddCore, setAdd_of_mem _ _ h]
  · rw [if_neg h, connRooms_linkAddCore, connRooms_updateConn_self]
    show setAdd (connRooms (linkAddCore st c r) c) r = _
    rw [connRooms_linkAddCore]

theorem connRooms_linkAdd_ne (st : ServerState) (c : CId) (r : String) (x : CId)
    (hx : x ≠ c) : connRooms (link_addClientToRoom st c r) x = connRooms st x := by
  rw [link_addClientToRoom_eq]
  by_cases h : r ∈ connRooms st c
  · rw [if_pos h, connRooms_linkAddCore]
  · rw [if_neg h, connRooms_linkAddCore, connRooms_updateConn_ne _ _ _ _ hx,
      connRooms_linkAddCore]

theorem roomMembers_updateConn (st : ServerState) (c : CId) (f : ConnData → ConnData)
    (r : String) : roomMembers (updateConn st c f) r = roomMembers st r := by
  unfold roomMembers
  rw [rooms_updateConn]

theorem roomMembers_linkAdd_self (st : ServerState) (c : CId) (r : String) :
    roomMembers (link_addClientToRoom st c r) r = setAdd (roomMembers st r) c := by
  rw [link_addClientToRoom_eq]
  by_cases h : r ∈ connRooms st c
  · rw [if_pos h, roomMembers_linkAddCore_self]
  · rw [if_neg h, roomMembers_linkAddCore_self, roomMembers_updateConn,
      roomMembers_linkAddCore_self, setAdd_setAdd_self]

theorem roomMembers_linkAdd_ne (st : ServerState) (c : CId) (r r2 : String)
    (hr : r2 ≠ r) : roomMembers (link_addClientToRoom st c r) r2 = roomMembers st r2 := by
  rw [link_addClientToRoom_eq]
  by_cases h : r ∈ connRooms st c
  · rw [if_pos h, roomMembers_linkAddCore_ne _ _ _ _ hr]
  · rw [if_neg h, roomMembers_linkAddCore_ne _ _ _ _ hr, roomMembers_updateConn,
      roomMembers_linkAddCore_ne _ _ _ _ hr]

theorem insync_linkAdd (st : ServerState) (c : CId) (r : String)
    (h : InSync st) : InSync (link_addClientToRoom st c r) := by
  apply insync_join_shape st _ c r _ _ _ _ h
  · exact connRooms_linkAdd_self st c r
  · exact connRooms_linkAdd_ne st c r
  · exact roomMembers_linkAdd_self st c r
  · exact roomMembers_linkAdd_ne st c r

theorem connRooms_conn_leave_self (st : ServerState) (c : CId) (r : String) :
    connRooms (conn_leave st c r) c = setDel (connRooms st c) r := by
  rw [conn_leave_eq, connRooms_removeCore, connRooms_leaveLocal_self]

theorem connRooms_conn_leave_ne (st : ServerState) (c : CId) (r : String) (x : CId)
    (hx : x ≠ c) : connRooms (conn_leave st c r) x = connRooms st x := by
  rw [conn_leave_eq, connRooms_removeCore, connRooms_leaveLocal_ne _ _ _ _ hx]

theorem roomMembers_conn_leave_self (st : ServerState) (c : CId) (r : String) :
    roomMembers (conn_leave st c r) r = setDel (roomMembers st r) c := by
  rw [conn_leave_eq, roomMembers_removeCore_self, roomMembers_leaveLocal]

theorem roomMembers_conn_leave_ne (st : ServerState) (c : CId) (r r2 : String)
    (hr : r2 ≠ r) : roomMembers (conn_leave st c r) r2 = roomMembers st r2 := by
  rw [conn_leave_eq, roomMembers_removeCore_ne _ _ _ _ hr, roomMembers_leaveLocal]

theorem insync_conn_leave (st : ServerState) (c : CId) (r : String)
    (h : InSync st) : InSync (conn_leave st c r) := by
  apply insync_leave_shape st _ c r _ _ _ _ h
  · exact connRooms_conn_leave_self st c r
  · exact connRooms_conn_leave_ne st c r
  · exact roomMembers_conn_leave_self st c r
  · exact roomMembers_conn_leave_ne st c r

theorem insync_extDel (st : ServerState) (c : CId) (r : String)
    (h : InSync st) (hloc : r ∉ connRooms st c) : InSync (extDel st c r) := by
  apply insync_leave_shape st _ c r _ _ _ _ h
  · rw [connRooms_extDel, setDel_of_not_mem _ _ hloc]
  · intro x _
    rw [connRooms_extDel]
  · exact roomMembers_extDel_self st c r
  · exact roomMembers_extDel_ne st c r

theorem insync_link_leave (st : ServerState) (ts : List CId) (r : String)
    (h : InSync st) : InSync (link_leave st ts r) := by
  rw [link_leave_eq]
  induction ts generalizing st with
  | nil => exact h
  | cons x ts ih =>
      rw [List.foldl_cons]
      apply ih
      apply insync_extDel _ _ _ (insync_conn_leave st x r h)
      rw [connRooms_conn_leave_self]
      exact not_mem_setDel_self _ _

theorem connRooms_ensureRoomIdx (st : ServerState) (r : String) (x : CId) :
    connRooms (ensureRoomIdx st r) x = connRooms st x := by
  unfold ensureRoomIdx
  split <;> rfl

theorem roomMembers_ensureRoomIdx (st : ServerState) (r r2 : String) :
    roomMembers (ensureRoomIdx st r) r2 = roomMembers st r2 := by
  unfold ensureRoomIdx
  by_cases h : mapHas st.rooms r
  · rw [if_pos h]
  · rw [if_neg h]
    unfold roomMembers
    rw [rooms_withRooms]
    by_cases hr : r2 = r
    · subst hr
      rw [mapGet_mapSet_self]
      have hnone : mapGet st.rooms r2 = none := by
        unfold mapHas at h
        exact Option.not_isSome_iff_eq_none.mp (by simpa using h)
      rw [hnone]
      rfl
    · rw [mapGet_mapSet_ne _ _ _ _ hr]

theorem insync_ensureRoomIdx (st : ServerState) (r : String)
    (h : InSync st) : InSync (ensureRoomIdx st r) := by
  intro x r2
  rw [connRooms_ensureRoomIdx, roomMembers_ensureRoomIdx]
  exact h x r2

theorem insync_link_join (st : ServerState) (ts : List CId) (r : String)
    (h : InSync st) : InSync (link_join st ts r) := by
  rw [link_join_eq]
  have h0 : InSync (ensureRoomIdx st r) := insync_ensureRoomIdx st r h
  generalize ensureRoomIdx st r = st0 at h0
  induction ts generalizing st0 with
  | nil => exact h0
  | cons x ts ih =>
      rw [List.foldl_cons]
      apply ih
      by_cases hx : r ∈ connRooms st0 x
      · rw [if_pos hx]; exact h0
      · rw [if_neg hx]; exact insync_conn_join st0 x r h0

theorem insync_applyOp (st : ServerState) (op : JLOp)
    (h : InSync st) : InSync (applyOp st op) := by
  cases op with
  | connJoin c r => exact insync_conn_join st c r h
  | connLeave c r => exact insync_conn_leave st c r h
  | linkJoin ts r => exact insync_link_join st ts r h
  | linkLeave ts r => exact insync_link_leave st ts r h
  | linkAdd c r => exact insync_linkAdd st c r h

end InSyncLemmas

/-! ### Preservation of the no-empty-rooms invariant -/

section NerLemmas

theorem ner_of_rooms_eq (st st2 : ServerState) (h : st2.rooms = st.rooms)
    (hN : NoEmptyRooms st) : NoEmptyRooms st2 := by
  intro r s hs
  rw [h] at hs
  exact hN r s hs

theorem ner_linkAddCore (st : ServerState) (c : CId) (r : String)
    (hN : NoEmptyRooms st) : NoEmptyRooms (linkAddCore st c r) := by
  intro r2 s hs
  by_cases hr : r2 = r
  · subst hr
    rw [mapGet_linkAddCore_self] at hs
    intro hnil
    rw [hnil] at hs
    exact setAdd_ne_nil _ _ (Option.some.inj hs)
  · rw [mapGet_linkAddCore_ne _ _ _ _ hr] at hs
    exact hN r2 s hs

theorem ner_conn_join (st : ServerState) (c : CId) (r : String)
    (hN : NoEmptyRooms st) : NoEmptyRooms (conn_join st c r) := by
  rw [conn_join_eq]
  exact ner_linkAddCore _ c r (ner_of_rooms_eq st _ (rooms_joinLocal st c r) hN)

theorem ner_linkAdd (st : ServerState) (c : CId) (r : String)
    (hN : NoEmptyRooms st) : NoEmptyRooms (link_addClientToRoom st c r) := by
  rw [link_addClientToRoom_eq]
  by_cases h : r ∈ connRooms st c
  · rw [if_pos h]
    exact ner_linkAddCore st c r hN
  · rw [if_neg h]
    apply ner_linkAddCore
    apply ner_of_rooms_eq (linkAddCore st c r) _ (rooms_updateConn _ _ _)
    exact ner_linkAddCore st c r hN

theorem ner_removeCore (st : ServerState) (c : CId) (r : String)
    (hN : NoEmptyRooms st) : NoEmptyRooms (removeCore st c r) := by
  intro r2 s hs
  by_cases hr : r2 = r
  · subst hr
    intro hnil
    rw [hnil] at hs
    exact mapGet_removeCore_self_ne_nil st c r2 hs
  · rw [mapGet_removeCore_ne _ _ _ _ hr] at hs
    exact hN r2 s hs

theorem ner_conn_leave (st : ServerState) (c : CId) (r : String)
    (hN : NoEmptyRooms st) : NoEmptyRooms (conn_leave st c r) := by
  rw [conn_leave_eq]
  exact ner_removeCore _ c r (ner_of_rooms_eq st _ (rooms_leaveLocal st c r) hN)

theorem mapGet_extDel_self (st : ServerState) (c : CId) (r : String) :
    mapGet (extDel st c r).rooms r = (mapGet st.rooms r).map (fun s => setDel s c) := by
  unfold extDel
  cases hm : mapGet st.rooms r with
  | some s =>
      simp only [hm, rooms_withRooms]
      rw [mapGet_mapSet_self]
      rfl
  | none => simp [hm]

theorem ner_extDel (st : ServerState) (c : CId) (r : String)
    (hN : NoEmptyRooms st) (hmem : c ∉ roomMembers st r) : NoEmptyRooms (extDel st c r) := by
  intro r2 s hs
  by_cases hr : r2 = r
  · subst hr
    rw [mapGet_extDel_self] at hs
    cases hm : mapGet st.rooms r2 with
    | some s0 =>
        rw [hm] at hs
        have hsval : s = setDel s0 c := (Option.some.inj hs).symm
        have hc : c ∉ s0 := by
          unfold roomMembers at hmem
          rw [hm] at hmem
          exact hmem
        rw [hsval, setDel_of_not_mem _ _ hc]
        exact hN r2 s0 hm
    | none => rw [hm] at hs; exact absurd hs (by simp)
  · rw [mapGet_extDel_ne _ _ _ _ hr] at hs
    exact hN r2 s hs

theorem ner_link_removeClientInRoom (st : ServerState) (c : CId) (roomIds : List String)
    (hN : NoEmptyRooms st) : NoEmptyRooms (link_removeClientInRoom st c roomIds) := by
  rw [link_removeClientInRoom_eq]
  induction roomIds generalizing st with
  | nil => exact hN
  | cons r rest ih =>
      rw [List.foldl_cons]
      exact ih _ (ner_removeCore st c r hN)

theorem ner_link_leave (st : ServerState) (ts : List CId) (r : String)
    (hN : NoEmptyRooms st) : NoEmptyRooms (link_leave st ts r) := by
  rw [link_leave_eq]
  induction ts generalizing st with
  | nil => exact hN
  | cons x rest ih =>
      rw [List.foldl_cons]
      apply ih
      apply ner_extDel _ x r (ner_conn_leave st x r hN)
      rw [roomMembers_conn_leave_self]
      exact not_mem_setDel_self _ _

theorem ner_clientClose (st : ServerState) (c : CId)
    (hN : NoEmptyRooms st) : NoEmptyRooms (clientClose st c) := by
  rw [clientClose_eq]
  apply ner_link_removeClientInRoom
  exact ner_of_rooms_eq st _ rfl hN

theorem ner_teardownStep (st : ServerState) (c : CId) (r : String)
    (hN : NoEmptyRooms st) : NoEmptyRooms (teardownStep c st r) := by
  unfold teardownStep
  apply ner_link_leave
  exact ner_of_rooms_eq st _ (rooms_updateConn _ _ _) hN

theorem ner_transportTeardownRooms (st : ServerState) (c : CId)
    (hN : NoEmptyRooms st) : NoEmptyRooms (transportTeardownRooms st c) := by
  unfold transportTeardownRooms
  generalize connRooms st c = rs
  induction rs generalizing st with
  | nil => exact hN
  | cons r rest ih =>
      rw [List.foldl_cons]
      exact ih _ (ner_teardownStep st c r hN)

theorem isExistRoom_conn_leave_last (st : ServerState) (c : CId) (r : String)
    (h : mapGet st.rooms r = some [c]) : isExistRoom (conn_leave st c r) r = false := by
  rw [conn_leave_eq]
  unfold removeCore
  rw [rooms_leaveLocal, h]
  have hsd : setDel [c] c = [] := by simp [setDel]
  simp only [hsd]
  rw [if_pos (by rw [rooms_withRooms, mapGet_mapSet_self])]
  unfold isExistRoom mapHas
  rw [rooms_withRooms, rooms_withRooms, mapGet_mapDelete_self]
  rfl

end NerLemmas

/-! ### The transport close/error teardown path -/

section TeardownLemmas

theorem setDel_setDel_self {α : Type} [DecidableEq α] (s : List α) (x : α) :
    setDel (setDel s x) x = setDel s x :=
  setDel_of_not_mem _ _ (not_mem_setDel_self s x)

theorem socketClients_conn_leave (st : ServerState) (c : CId) (r : String) :
    (conn_leave st c r).socketClients = st.socketClients := by
  rw [conn_leave_eq, socketClients_removeCore, socketClients_leaveLocal]

theorem socketClients_link_leave (st : ServerState) (ts : List CId) (r : String) :
    (link_leave st ts r).socketClients = st.socketClients := by
  rw [link_leave_eq]
  induction ts generalizing st with
  | nil => rfl
  | cons x rest ih =>
      rw [List.foldl_cons, ih, socketClients_extDel, socketClients_conn_leave]

theorem socketClients_teardownStep (st : ServerState) (c : CId) (r : String) :
    (teardownStep c st r).socketClients = st.socketClients := by
  unfold teardownStep
  rw [socketClients_link_leave, socketClients_updateConn]

theorem socketClients_transportTeardownRooms (st : ServerState) (c : CId) :
    (transportTeardownRooms st c).socketClients = st.socketClients := by
  unfold transportTeardownRooms
  generalize connRooms st c = rs
  induction rs generalizing st with
  | nil => rfl
  | cons r rest ih =>
      rw [List.foldl_cons, ih, socketClients_teardownStep]

theorem connUuid_conn_leave (st : ServerState) (c : CId) (r : String) (x : CId) :
    connUuid (conn_leave st c r) x = connUuid st x := by
  rw [conn_leave_eq, connUuid_removeCore, connUuid_leaveLocal]

theorem connUuid_extDel (st : ServerState) (c : CId) (r : String) (x : CId) :
    connUuid (extDel st c r) x = connUuid st x := by
  unfold connUuid
  rw [heap_extDel]

theorem connUuid_link_leave (st : ServerState) (ts : List CId) (r : String) (x : CId) :
    connUuid (link_leave st ts r) x = connUuid st x := by
  rw [link_leave_eq]
  induction ts generalizing st with
  | nil => rfl
  | cons y rest ih =>
      rw [List.foldl_cons, ih, connUuid_extDel, connUuid_conn_leave]

theorem connUuid_updateConnRooms (st : ServerState) (c : CId)
    (g : ConnData → List String) (x : CId) :
    connUuid (updateConn st c (fun d => { d with rooms := g d })) x = connUuid st x := by
  unfold connUuid updateConn
  by_cases hx : x = c <;> simp [hx]

theorem connUuid_teardownStep (st : ServerState) (c : CId) (r : String) (x : CId) :
    connUuid (teardownStep c st r) x = connUuid st x := by
  unfold teardownStep
  rw [connUuid_link_leave, connUuid_updateConnRooms]

theorem toClients_single (st : ServerState) (u : String) (c : CId)
    (h : mapGet st.socketClients u = some c) : toClients st [u] = [c] := by
  simp [toClients, h, setAdd]

theorem mem_roomMembers_conn_leave_mono (st : ServerState) (c : CId) (r r2 : String)
    (x : CId) (h : x ∈ roomMembers (conn_leave st c r) r2) : x ∈ roomMembers st r2 := by
  by_cases hr : r2 = r
  · subst hr
    rw [roomMembers_conn_leave_self, mem_setDel] at h
    exact h.1
  · rw [roomMembers_conn_leave_ne _ _ _ _ hr] at h
    exact h

theorem mem_roomMembers_extDel_mono (st : ServerState) (c : CId) (r r2 : String)
    (x : CId) (h : x ∈ roomMembers (extDel st c r) r2) : x ∈ roomMembers st r2 := by
  by_cases hr : r2 = r
  · subst hr
    rw [roomMembers_extDel_self, mem_setDel] at h
    exact h.1
  · rw [roomMembers_extDel_ne _ _ _ _ hr] at h
    exact h

theorem mem_roomMembers_link_leave_mono (st : ServerState) (ts : List CId) (r r2 : String)
    (x : CId) (h : x ∈ roomMembers (link_leave st ts r) r2) : x ∈ roomMembers st r2 := by
  rw [link_leave_eq] at h
  induction ts generalizing st with
  | nil => exact h
  | cons y rest ih =>
      rw [List.foldl_cons] at h
      exact mem_roomMembers_conn_leave_mono _ _ _ _ _
        (mem_roomMembers_extDel_mono _ _ _ _ _ (ih _ h))

theorem roomMembers_updateConnRooms (st : ServerState) (c : CId)
    (g : ConnData → ConnData) (r : String) :
    roomMembers (updateConn st c g) r = roomMembers st r := by
  unfold roomMembers
  rw [rooms_updateConn]

theorem mem_roomMembers_teardownStep_mono (st : ServerState) (c : CId) (r r2 : String)
    (x : CId) (h : x ∈ roomMembers (teardownStep c st r) r2) : x ∈ roomMembers st r2 := by
  unfold teardownStep at h
  have := mem_roomMembers_link_leave_mono _ _ _ _ _ h
  rw [roomMembers_updateConnRooms] at this
  exact this

theorem teardownStep_unfold_reg (st : ServerState) (c : CId) (r : String)
    (hreg : mapGet st.socketClients (connUuid st c) = some c) :
    teardownStep c st r =
      extDel (conn_leave (updateConn st c
        (fun d => { d with rooms := setDel d.rooms r })) c r) c r := by
  unfold teardownStep
  have h1 : connUuid (updateConn st c (fun d => { d with rooms := setDel d.rooms r })) c =
      connUuid st c := connUuid_updateConnRooms st c _ c
  have h2 : mapGet (updateConn st c
      (fun d => { d with rooms := setDel d.rooms r })).socketClients (connUuid st c) =
      some c := by
    rw [socketClients_updateConn]
    exact hreg
  show link_leave (updateConn st c (fun d => { d with rooms := setDel d.rooms r }))
      (toClients (updateConn st c (fun d => { d with rooms := setDel d.rooms r }))
        [connUuid (updateConn st c (fun d => { d with rooms := setDel d.rooms r })) c]) r = _
  rw [h1, toClients_single _ _ _ h2, link_leave_eq]
  rfl

theorem not_mem_teardownStep_self (st : ServerState) (c : CId) (r : String)
    (hreg : mapGet st.socketClients (connUuid st c) = some c) :
    c ∉ roomMembers (teardownStep c st r) r := by
  rw [teardownStep_unfold_reg st c r hreg, roomMembers_extDel_self]
  exact not_mem_setDel_self _ _

theorem connRooms_teardownStep_self (st : ServerState) (c : CId) (r : String)
    (hreg : mapGet st.socketClients (connUuid st c) = some c) :
    connRooms (teardownStep c st r) c = setDel (connRooms st c) r := by
  rw [teardownStep_unfold_reg st c r hreg, connRooms_extDel, connRooms_conn_leave_self,
    connRooms_updateConn_self]
  show setDel (setDel (connRooms st c) r) r = _
  exact setDel_setDel_self _ _

theorem teardown_fold_purge (c : CId) (rs : List String) :
    ∀ st : ServerState,
      mapGet st.socketClients (connUuid st c) = some c →
      (∀ r0, c ∈ roomMembers st r0 → r0 ∈ rs) →
      ∀ r0, c ∉ roomMembers (rs.foldl (teardownStep c) st) r0 := by
  induction rs with
  | nil =>
      intro st _ hcov r0 hmem
      exact List.not_mem_nil r0 (hcov r0 hmem)
  | cons r rest ih =>
      intro st hreg hcov r0
      rw [List.foldl_cons]
      apply ih (teardownStep c st r)
      · rw [socketClients_teardownStep, connUuid_teardownStep]
        exact hreg
      · intro r1 hmem
        have hr1 : r1 ≠ r := by
          intro heq
          rw [heq] at hmem
          exact not_mem_teardownStep_self st c r hreg hmem
        have := hcov r1 (mem_roomMembers_teardownStep_mono st c r r1 c hmem)
        cases List.mem_cons.mp this with
        | inl h => exact absurd h hr1
        | inr h => exact h

theorem teardown_fold_local (c : CId) (rs : List String) :
    ∀ st : ServerState,
      mapGet st.socketClients (connUuid st c) = some c →
      ∀ r0, r0 ∈ connRooms (rs.foldl (teardownStep c) st) c →
        r0 ∈ connRooms st c ∧ r0 ∉ rs := by
  induction rs with
  | nil =>
      intro st _ r0 h
      exact ⟨h, List.not_mem_nil r0⟩
  | cons r rest ih =>
      intro st hreg r0 h
      rw [List.foldl_cons] at h
      have hreg2 : mapGet (teardownStep c st r).socketClients
          (connUuid (teardownStep c st r) c) = some c := by
        rw [socketClients_teardownStep, connUuid_teardownStep]
        exact hreg
      have hih := ih (teardownStep c st r) hreg2 r0 h
      rw [connRooms_teardownStep_self st c r hreg, mem_setDel] at hih
      exact ⟨hih.1.1, by
        rw [List.mem_cons]
        rintro (heq | hmem)
        · exact hih.1.2 heq
        · exact hih.2 hmem⟩

theorem transportTeardownRooms_purge (st : ServerState) (c : CId)
    (hreg : mapGet st.socketClients (connUuid st c) = some c)
    (hInv : InSync st) :
    (∀ r, c ∉ roomMembers (transportTeardownRooms st c) r) ∧
      connRooms (transportTeardownRooms st c) c = [] := by
  unfold transportTeardownRooms
  constructor
  · apply teardown_fold_purge c (connRooms st c) st hreg
    intro r0 hmem
    exact (hInv c r0).mpr hmem
  · rw [List.eq_nil_iff_forall_not_mem]
    intro r0 hmem
    have := teardown_fold_local c (connRooms st c) st hreg r0 hmem
    exact this.2 this.1

end TeardownLemmas

/-! ### Heartbeat sweep lemmas -/

section SweepLemmas

theorem heap_link_removeClientInRoom (st : ServerState) (c : CId) (l : List String) :
    (link_removeClientInRoom st c l).heap = st.heap := by
  rw [link_removeClientInRoom_eq]
  induction l generalizing st with
  | nil => rfl
  | cons r rest ih =>
      rw [List.foldl_cons, ih, heap_removeCore]

theorem heap_clientClose (st : ServerState) (c : CId) :
    (clientClose st c).heap = st.heap := by
  rw [clientClose_eq, heap_link_removeClientInRoom]
  rfl

theorem socketClients_link_removeClientInRoom (st : ServerState) (c : CId)
    (l : List String) :
    (link_removeClientInRoom st c l).socketClients = st.socketClients := by
  rw [link_removeClientInRoom_eq]
  induction l generalizing st with
  | nil => rfl
  | cons r rest ih =>
      rw [List.foldl_cons, ih, socketClients_removeCore]

theorem socketClients_clientClose (st : ServerState) (c : CId) :
    (clientClose st c).socketClients = mapDelete st.socketClients (connUuid st c) := by
  rw [clientClose_eq, socketClients_link_removeClientInRoom]
  rfl

theorem connUuid_conn_close (st : ServerState) (c : CId) (x : CId) :
    connUuid (conn_close st c) x = connUuid st x := by
  unfold connUuid conn_close
  rw [heap_clientClose]

theorem connAlive_conn_close (st : ServerState) (c : CId) (x : CId) :
    connAlive (conn_close st c) x = connAlive st x := by
  unfold connAlive conn_close
  rw [heap_clientClose]

theorem connUuid_conn_ping (st : ServerState) (c : CId) (x : CId) :
    connUuid (conn_ping st c) x = connUuid st x := by
  unfold connUuid conn_ping updateConn
  by_cases hx : x = c <;> simp [hx]

theorem connAlive_conn_ping_self (st : ServerState) (c : CId) :
    connAlive (conn_ping st c) c = false := by
  simp [connAlive, conn_ping, updateConn]

theorem connAlive_conn_ping_ne (st : ServerState) (c : CId) (x : CId) (h : x ≠ c) :
    connAlive (conn_ping st c) x = connAlive st x := by
  simp [connAlive, conn_ping, updateConn, h]

theorem socketClients_conn_ping (st : ServerState) (c : CId) :
    (conn_ping st c).socketClients = st.socketClients := rfl

theorem toClients_single_none (st : ServerState) (u : String)
    (h : mapGet st.socketClients u = none) : toClients st [u] = [] := by
  simp [toClients, h]

theorem sweepStep_dead (st : ServerState) (l : List CId) (c : CId)
    (h : connAlive st c = false) : sweepStep (st, l) c = (conn_close st c, l) := by
  unfold sweepStep
  simp only [h, if_true]
  have hu : connUuid (conn_close st c) c = connUuid st c := connUuid_conn_close st c c
  have hnone : mapGet (conn_close st c).socketClients (connUuid (conn_close st c) c) =
      none := by
    rw [hu]
    show mapGet (clientClose st c).socketClients (connUuid st c) = none
    rw [socketClients_clientClose, mapGet_mapDelete_self]
  rw [toClients_single_none _ _ hnone]
  rfl

theorem sweepStep_alive (st : ServerState) (l : List CId) (c : CId)
    (h : connAlive st c = true) : sweepStep (st, l) c = (conn_ping st c, l ++ [c]) := by
  unfold sweepStep
  simp only [h]
  rfl

theorem connUuid_sweepStep (acc : ServerState × List CId) (x y : CId) :
    connUuid (sweepStep acc x).1 y = connUuid acc.1 y := by
  by_cases h : connAlive acc.1 x = false
  · rw [show acc = (acc.1, acc.2) from rfl, sweepStep_dead _ _ _ h]
    exact connUuid_conn_close acc.1 x y
  · rw [show acc = (acc.1, acc.2) from rfl,
      sweepStep_alive _ _ _ (Bool.not_eq_false _ |>.mp h)]
    exact connUuid_conn_ping acc.1 x y

theorem connAlive_sweepStep_ne (acc : ServerState × List CId) (x y : CId) (hxy : y ≠ x) :
    connAlive (sweepStep acc x).1 y = connAlive acc.1 y := by
  by_cases h : connAlive acc.1 x = false
  · rw [show acc = (acc.1, acc.2) from rfl, sweepStep_dead _ _ _ h]
    exact connAlive_conn_close acc.1 x y
  · rw [show acc = (acc.1, acc.2) from rfl,
      sweepStep_alive _ _ _ (Bool.not_eq_false _ |>.mp h)]
    exact connAlive_conn_ping_ne acc.1 x y hxy

theorem mapGet_sweepStep_ne (acc : ServerState × List CId) (x : CId) (u : String)
    (hne : connUuid acc.1 x ≠ u) :
    mapGet ((sweepStep acc x).1).socketClients u = mapGet acc.1.socketClients u := by
  by_cases h : connAlive acc.1 x = false
  · rw [show acc = (acc.1, acc.2) from rfl, sweepStep_dead _ _ _ h]
    show mapGet (clientClose acc.1 x).socketClients u = _
    rw [socketClients_clientClose, mapGet_mapDelete_ne _ _ _ (fun hh => hne hh.symm)]
  · rw [show acc = (acc.1, acc.2) from rfl,
      sweepStep_alive _ _ _ (Bool.not_eq_false _ |>.mp h)]
    rfl

theorem mapGet_sweepStep_none (acc : ServerState × List CId) (x : CId) (u : String)
    (h : mapGet acc.1.socketClients u = none) :
    mapGet ((sweepStep acc x).1).socketClients u = none := by
  by_cases ha : connAlive acc.1 x = false
  · rw [show acc = (acc.1, acc.2) from rfl, sweepStep_dead _ _ _ ha]
    show mapGet (clientClose acc.1 x).socketClients u = none
    rw [socketClients_clientClose]
    by_cases hu : u = connUuid acc.1 x
    · rw [hu, mapGet_mapDelete_self]
    · rw [mapGet_mapDelete_ne _ _ _ hu]
      exact h
  · rw [show acc = (acc.1, acc.2) from rfl,
      sweepStep_alive _ _ _ (Bool.not_eq_false _ |>.mp ha)]
    exact h

theorem pinged_sweepStep_mono (acc : ServerState × List CId) (x : CId) (m : CId)
    (h : m ∈ acc.2) : m ∈ (sweepStep acc x).2 := by
  by_cases ha : connAlive acc.1 x = false
  · rw [show acc = (acc.1, acc.2) from rfl, sweepStep_dead _ _ _ ha]
    exact h
  · rw [show acc = (acc.1, acc.2) from rfl,
      sweepStep_alive _ _ _ (Bool.not_eq_false _ |>.mp ha)]
    exact List.mem_append_left _ h

theorem sweep_fold_none (u : String) (vs : List CId) :
    ∀ acc : ServerState × List CId, mapGet acc.1.socketClients u = none →
      mapGet ((vs.foldl sweepStep acc).1).socketClients u = none := by
  induction vs with
  | nil => intro acc h; exact h
  | cons x rest ih =>
      intro acc h
      rw [List.foldl_cons]
      exact ih _ (mapGet_sweepStep_none acc x u h)

theorem sweep_fold_keep (u : String) (c : CId) (vs : List CId) :
    ∀ acc : ServerState × List CId,
      mapGet acc.1.socketClients u = some c →
      (∀ x ∈ vs, connUuid acc.1 x ≠ u) →
      (∀ x ∈ vs, x ≠ c) →
      mapGet ((vs.foldl sweepStep acc).1).socketClients u = some c ∧
        connAlive (vs.foldl sweepStep acc).1 c = connAlive acc.1 c ∧
        ∀ m ∈ acc.2, m ∈ (vs.foldl sweepStep acc).2 := by
  induction vs with
  | nil =>
      intro acc h _ _
      exact ⟨h, rfl, fun m hm => hm⟩
  | cons x rest ih =>
      intro acc h hu hc
      rw [List.foldl_cons]
      have hx : x ∈ x :: rest := List.mem_cons_self x rest
      have ihres := ih (sweepStep acc x)
        (by rw [mapGet_sweepStep_ne acc x u (hu x hx)]; exact h)
        (by intro y hy; rw [connUuid_sweepStep]; exact hu y (List.mem_cons_of_mem x hy))
        (by intro y hy; exact hc y (List.mem_cons_of_mem x hy))
      refine ⟨ihres.1, ?_, ?_⟩
      · rw [ihres.2.1, connAlive_sweepStep_ne acc x c (Ne.symm (hc x hx))]
      · intro m hm
        exact ihres.2.2 m (pinged_sweepStep_mono acc x m hm)

theorem sweep_fold_dead (u : String) (c : CId) (vs : List CId) :
    ∀ acc : ServerState × List CId,
      vs.Nodup → c ∈ vs →
      mapGet acc.1.socketClients u = some c →
      connUuid acc.1 c = u →
      (∀ x ∈ vs, x ≠ c → connUuid acc.1 x ≠ u) →
      connAlive acc.1 c = false →
      mapGet ((vs.foldl sweepStep acc).1).socketClients u = none := by
  induction vs with
  | nil => intro acc _ hc; exact absurd hc (List.not_mem_nil c)
  | cons x rest ih =>
      intro acc hnd hc hreg huuid hoth halive
      rw [List.foldl_cons]
      by_cases hxc : x = c
      · subst hxc
        rw [show acc = (acc.1, acc.2) from rfl, sweepStep_dead _ _ _ halive]
        apply sweep_fold_none
        show mapGet (clientClose acc.1 x).socketClients u = none
        rw [socketClients_clientClose, huuid, mapGet_mapDelete_self]
      · have hcrest : c ∈ rest := by
          cases List.mem_cons.mp hc with
          | inl h => exact absurd h.symm hxc
          | inr h => exact h
        apply ih (sweepStep acc x) (List.Nodup.of_cons hnd) hcrest
        · rw [mapGet_sweepStep_ne acc x u
            (hoth x (List.mem_cons_self x rest) hxc)]
          exact hreg
        · rw [connUuid_sweepStep]; exact huuid
        · intro y hy hyc
          rw [connUuid_sweepStep]
          exact hoth y (List.mem_cons_of_mem x hy) hyc
        · rw [connAlive_sweepStep_ne acc x c (fun hh => hxc hh.symm)]
          exact halive

theorem sweep_fold_alive (u : String) (c : CId) (vs : List CId) :
    ∀ acc : ServerState × List CId,
      vs.Nodup → c ∈ vs →
      mapGet acc.1.socketClients u = some c →
      (∀ x ∈ vs, x ≠ c → connUuid acc.1 x ≠ u) →
      connAlive acc.1 c = true →
      mapGet ((vs.foldl sweepStep acc).1).socketClients u = some c ∧
        connAlive (vs.foldl sweepStep acc).1 c = false ∧
        c ∈ (vs.foldl sweepStep acc).2 := by
  induction vs with
  | nil => intro acc _ hc; exact absurd hc (List.not_mem_nil c)
  | cons x rest ih =>
      intro acc hnd hc hreg hoth halive
      rw [List.foldl_cons]
      by_cases hxc : x = c
      · subst hxc
        rw [show acc = (acc.1, acc.2) from rfl, sweepStep_alive _ _ _ halive]
        have hcnotrest : x ∉ rest := (List.nodup_cons.mp hnd).1
        have hkeep := sweep_fold_keep u x rest (conn_ping acc.1 x, acc.2 ++ [x])
          (by show mapGet (conn_ping acc.1 x).socketClients u = some x
              rw [socketClients_conn_ping]; exact hreg)
          (by intro y hy
              show connUuid (conn_ping acc.1 x) y ≠ u
              rw [connUuid_conn_ping]
              exact hoth y (List.mem_cons_of_mem x hy)
                (fun hh => hcnotrest (hh ▸ hy)))
          (by intro y hy
              exact fun hh => hcnotrest (hh ▸ hy))
        refine ⟨hkeep.1, ?_, ?_⟩
        · rw [hkeep.2.1]
          exact connAlive_conn_ping_self acc.1 x
        · exact hkeep.2.2 x (List.mem_append_right _ (List.mem_singleton.mpr rfl))
      · have hcrest : c ∈ rest := by
          cases List.mem_cons.mp hc with
          | inl h => exact absurd h.symm hxc
          | inr h => exact h
        apply ih (sweepStep acc x) (List.Nodup.of_cons hnd) hcrest
        · rw [mapGet_sweepStep_ne acc x u
            (hoth x (List.mem_cons_self x rest) hxc)]
          exact hreg
        · intro y hy hyc
          rw [connUuid_sweepStep]
          exact hoth y (List.mem_cons_of_mem x hy) hyc
        · rw [connAlive_sweepStep_ne acc x c (fun hh => hxc hh.symm)]
          exact halive

end SweepLemmas

/-! ### Registry well-formedness and the sweep -/

section WfSweep

theorem mapGet_mem {α β : Type} [DecidableEq α] (m : List (α × β)) (k : α) (v : β)
    (h : mapGet m k = some v) : (k, v) ∈ m := by
  induction m with
  | nil => exact absurd h (by simp [mapGet])
  | cons p rest ih =>
      rw [mapGet_cons] at h
      by_cases hp : p.1 = k
      · rw [if_pos hp] at h
        have hv : p.2 = v := Option.some.inj h
        have : p = (k, v) := by
          cases p
          simp only at hp hv
          rw [hp, hv]
        rw [← this]
        exact List.mem_cons_self p rest
      · rw [if_neg hp] at h
        exact List.mem_cons_of_mem p (ih h)

theorem mapGet_eq_of_mem_nodup {α β : Type} [DecidableEq α] (m : List (α × β)) (k : α)
    (v : β) (hnd : (m.map (fun p => p.1)).Nodup) (h : (k, v) ∈ m) :
    mapGet m k = some v := by
  induction m with
  | nil => exact absurd h (List.not_mem_nil _)
  | cons p rest ih =>
      rw [mapGet_cons]
      cases List.mem_cons.mp h with
      | inl heq =>
          rw [← heq]
          simp
      | inr hmem =>
          by_cases hp : p.1 = k
          · exfalso
            have hk : k ∈ rest.map (fun p => p.1) :=
              List.mem_map.mpr ⟨(k, v), hmem, rfl⟩
            have hthis : p.1 ∉ rest.map (fun p => p.1) := (List.nodup_cons.mp hnd).1
            exact hthis (by rw [hp]; exact hk)
          · rw [if_neg hp]
            exact ih (List.nodup_cons.mp hnd).2 hmem

theorem wf_uuid_of_reg (st : ServerState) (u : String) (c : CId)
    (hwf : WFsc st) (hreg : mapGet st.socketClients u = some c) :
    connUuid st c = u :=
  hwf.1 (u, c) (mapGet_mem _ _ _ hreg)

theorem wf_values_nodup (st : ServerState) (hwf : WFsc st) :
    (st.socketClients.map (fun p => p.2)).Nodup := by
  have hmapeq : st.socketClients.map (fun p => p.1) =
      st.socketClients.map (fun p => (st.heap p.2).uuid) :=
    List.map_congr_left (fun p hp => (hwf.1 p hp).symm)
  have h2 : (st.socketClients.map (fun p => (st.heap p.2).uuid)).Nodup := by
    rw [← hmapeq]
    exact hwf.2
  have h3 : ((st.socketClients.map (fun p => p.2)).map (fun x => (st.heap x).uuid)).Nodup := by
    rw [List.map_map]
    exact h2
  exact List.Nodup.of_map _ h3

theorem wf_mem_values (st : ServerState) (u : String) (c : CId)
    (hreg : mapGet st.socketClients u = some c) :
    c ∈ st.socketClients.map (fun p => p.2) :=
  List.mem_map.mpr ⟨(u, c), mapGet_mem _ _ _ hreg, rfl⟩

theorem wf_other_uuids (st : ServerState) (u : String) (c : CId)
    (hwf : WFsc st) (hreg : mapGet st.socketClients u = some c) :
    ∀ x ∈ st.socketClients.map (fun p => p.2), x ≠ c → connUuid st x ≠ u := by
  intro x hx hxc
  obtain ⟨p, hp, hpx⟩ := List.mem_map.mp hx
  have hux : connUuid st x = p.1 := by
    rw [← hpx]
    exact hwf.1 p hp
  rw [hux]
  intro heq
  have : (u, x) ∈ st.socketClients := by
    have : p = (u, x) := by
      cases p
      simp only at hpx heq ⊢
      rw [heq, hpx]
    rw [← this]
    exact hp
  have := mapGet_eq_of_mem_nodup _ _ _ hwf.2 this
  rw [hreg] at this
  exact hxc (Option.some.inj this).symm

theorem socketClients_sweepStep_sublist (acc : ServerState × List CId) (x : CId) :
    ((sweepStep acc x).1).socketClients.Sublist acc.1.socketClients := by
  by_cases ha : connAlive acc.1 x = false
  · rw [show acc = (acc.1, acc.2) from rfl, sweepStep_dead _ _ _ ha]
    show (clientClose acc.1 x).socketClients.Sublist _
    rw [socketClients_clientClose]
    exact List.filter_sublist _
  · rw [show acc = (acc.1, acc.2) from rfl,
      sweepStep_alive _ _ _ (Bool.not_eq_false _ |>.mp ha)]
    exact List.Sublist.refl _

theorem socketClients_sweep_fold_sublist (vs : List CId) :
    ∀ acc : ServerState × List CId,
      ((vs.foldl sweepStep acc).1).socketClients.Sublist acc.1.socketClients := by
  induction vs with
  | nil => intro acc; exact List.Sublist.refl _
  | cons x rest ih =>
      intro acc
      rw [List.foldl_cons]
      exact (ih (sweepStep acc x)).trans (socketClients_sweepStep_sublist acc x)

theorem connUuid_sweep_fold (vs : List CId) :
    ∀ (acc : ServerState × List CId) (y : CId),
      connUuid (vs.foldl sweepStep acc).1 y = connUuid acc.1 y := by
  induction vs with
  | nil => intro acc y; rfl
  | cons x rest ih =>
      intro acc y
      rw [List.foldl_cons, ih, connUuid_sweepStep]

theorem wf_sweep (st : ServerState) (hwf : WFsc st) : WFsc (sweep st).1 := by
  unfold sweep
  constructor
  · intro p hp
    have hsub := socketClients_sweep_fold_sublist (st.socketClients.map (fun p => p.2))
      (st, [])
    have hpm : p ∈ st.socketClients := hsub.subset hp
    have := hwf.1 p hpm
    have huuid := connUuid_sweep_fold (st.socketClients.map (fun p => p.2)) (st, []) p.2
    unfold connUuid at huuid
    rw [huuid]
    exact this
  · have hsub := socketClients_sweep_fold_sublist (st.socketClients.map (fun p => p.2))
      (st, [])
    exact List.Nodup.sublist (hsub.map _) hwf.2

theorem socketClients_transportPong (st : ServerState) (c : CId) :
    (transportPong st c).socketClients = st.socketClients := rfl

theorem connUuid_transportPong (st : ServerState) (c : CId) (x : CId) :
    connUuid (transportPong st c) x = connUuid st x := by
  unfold connUuid transportPong updateConn
  by_cases hx : x = c <;> simp [hx]

theorem connAlive_transportPong_self (st : ServerState) (c : CId) :
    connAlive (transportPong st c) c = true := by
  simp [connAlive, transportPong, updateConn]

theorem wf_transportPong (st : ServerState) (c : CId) (hwf : WFsc st) :
    WFsc (transportPong st c) := by
  constructor
  · intro p hp
    rw [socketClients_transportPong] at hp
    have := connUuid_transportPong st c p.2
    unfold connUuid at this
    rw [this]
    exact hwf.1 p hp
  · rw [socketClients_transportPong]
    exact hwf.2

theorem sweep_removes_dead (st : ServerState) (u : String) (c : CId)
    (hwf : WFsc st) (hreg : mapGet st.socketClients u = some c)
    (halive : connAlive st c = false) :
    mapGet ((sweep st).1).socketClients u = none := by
  unfold sweep
  exact sweep_fold_dead u c _ (st, []) (wf_values_nodup st hwf)
    (wf_mem_values st u c hreg) hreg (wf_uuid_of_reg st u c hwf hreg)
    (wf_other_uuids st u c hwf hreg) halive

theorem sweep_keeps_alive (st : ServerState) (u : String) (c : CId)
    (hwf : WFsc st) (hreg : mapGet st.socketClients u = some c)
    (halive : connAlive st c = true) :
    mapGet ((sweep st).1).socketClients u = some c ∧
      connAlive (sweep st).1 c = false ∧ c ∈ (sweep st).2 := by
  unfold sweep
  exact sweep_fold_alive u c _ (st, []) (wf_values_nodup st hwf)
    (wf_mem_values st u c hreg) hreg (wf_other_uuids st u c hwf hreg) halive

theorem pongSweepIter_keeps (c : CId) (n : Nat) :
    ∀ (st : ServerState) (u : String),
      WFsc st → mapGet st.socketClients u = some c →
      mapGet (pongSweepIter c n st).socketClients u = some c := by
  induction n with
  | zero => intro st u _ hreg; exact hreg
  | succ n ih =>
      intro st u hwf hreg
      unfold pongSweepIter
      have hwfp : WFsc (transportPong st c) := wf_transportPong st c hwf
      have hregp : mapGet (transportPong st c).socketClients u = some c := by
        rw [socketClients_transportPong]
        exact hreg
      have hsurv := sweep_keeps_alive (transportPong st c) u c hwfp hregp
        (connAlive_transportPong_self st c)
      exact ih _ u (wf_sweep _ hwfp) hsurv.1

end WfSweep

/-! ### The toRooms aliasing effect -/

section ToRoomsLemmas

theorem toRooms_eq_some (st : ServerState) (r1 : String) (rest : List String)
    (h : (mapGet st.rooms r1).isSome) :
    toRooms st (r1 :: rest) =
      (roomMembers (rest.foldl (toRoomsOuterStep r1) st) r1,
        rest.foldl (toRoomsOuterStep r1) st) := by
  cases hm : mapGet st.rooms r1 with
  | none => rw [hm] at h; exact absurd h (by simp)
  | some s0 =>
      unfold toRooms
      simp only [hm]
      rfl

theorem roomMembers_toRoomsInnerStep_self (r1 : String) (s2 : ServerState) (v : CId) :
    roomMembers (toRoomsInnerStep r1 s2 v) r1 = setAdd (roomMembers s2 r1) v := by
  unfold toRoomsInnerStep roomMembers
  rw [rooms_withRooms, mapGet_mapSet_self]
  rfl

theorem mapGet_toRoomsInnerStep_ne (r1 : String) (s2 : ServerState) (v : CId)
    (k : String) (h : k ≠ r1) :
    mapGet (toRoomsInnerStep r1 s2 v).rooms k = mapGet s2.rooms k := by
  unfold toRoomsInnerStep
  rw [rooms_withRooms, mapGet_mapSet_ne _ _ _ _ h]

theorem inner_fold_ne (r1 : String) (ms : List CId) :
    ∀ (s2 : ServerState) (k : String), k ≠ r1 →
      mapGet (ms.foldl (toRoomsInnerStep r1) s2).rooms k = mapGet s2.rooms k := by
  induction ms with
  | nil => intro s2 k _; rfl
  | cons v rest ih =>
      intro s2 k hk
      rw [List.foldl_cons, ih _ _ hk, mapGet_toRoomsInnerStep_ne _ _ _ _ hk]

theorem inner_fold_mono (r1 : String) (ms : List CId) :
    ∀ (s2 : ServerState) (x : CId), x ∈ roomMembers s2 r1 →
      x ∈ roomMembers (ms.foldl (toRoomsInnerStep r1) s2) r1 := by
  induction ms with
  | nil => intro s2 x hx; exact hx
  | cons v rest ih =>
      intro s2 x hx
      rw [List.foldl_cons]
      apply ih
      rw [roomMembers_toRoomsInnerStep_self]
      exact mem_setAdd_of_mem _ _ _ hx

theorem inner_fold_adds (r1 : String) (ms : List CId) :
    ∀ (s2 : ServerState) (x : CId), x ∈ ms →
      x ∈ roomMembers (ms.foldl (toRoomsInnerStep r1) s2) r1 := by
  induction ms with
  | nil => intro s2 x hx; exact absurd hx (List.not_mem_nil x)
  | cons v rest ih =>
      intro s2 x hx
      rw [List.foldl_cons]
      cases List.mem_cons.mp hx with
      | inl heq =>
          subst heq
          apply inner_fold_mono
          rw [roomMembers_toRoomsInnerStep_self]
          exact mem_setAdd_self _ _
      | inr hmem => exact ih _ _ hmem

theorem mapGet_toRoomsOuterStep_ne (r1 : String) (s : ServerState) (rj : String)
    (k : String) (h : k ≠ r1) :
    mapGet (toRoomsOuterStep r1 s rj).rooms k = mapGet s.rooms k := by
  unfold toRoomsOuterStep
  cases hm : mapGet s.rooms rj with
  | some members => exact inner_fold_ne r1 members s k h
  | none => rfl

theorem roomMembers_toRoomsOuterStep_mono (r1 : String) (s : ServerState) (rj : String)
    (x : CId) (hx : x ∈ roomMembers s r1) :
    x ∈ roomMembers (toRoomsOuterStep r1 s rj) r1 := by
  unfold toRoomsOuterStep
  cases hm : mapGet s.rooms rj with
  | some members => exact inner_fold_mono r1 members s x hx
  | none => exact hx

theorem outer_fold_ne (r1 : String) (rest : List String) :
    ∀ (s : ServerState) (k : String), k ≠ r1 →
      mapGet (rest.foldl (toRoomsOuterStep r1) s).rooms k = mapGet s.rooms k := by
  induction rest with
  | nil => intro s k _; rfl
  | cons rj rest2 ih =>
      intro s k hk
      rw [List.foldl_cons, ih _ _ hk, mapGet_toRoomsOuterStep_ne _ _ _ _ hk]

theorem outer_fold_mono (r1 : String) (rest : List String) :
    ∀ (s : ServerState) (x : CId), x ∈ roomMembers s r1 →
      x ∈ roomMembers (rest.foldl (toRoomsOuterStep r1) s) r1 := by
  induction rest with
  | nil => intro s x hx; exact hx
  | cons rj rest2 ih =>
      intro s x hx
      rw [List.foldl_cons]
      exact ih _ _ (roomMembers_toRoomsOuterStep_mono r1 s rj x hx)

theorem outer_fold_adds (st : ServerState) (r1 : String) (rest : List String) :
    ∀ s : ServerState,
      (∀ k, k ≠ r1 → mapGet s.rooms k = mapGet st.rooms k) →
      (∀ x, x ∈ roomMembers st r1 → x ∈ roomMembers s r1) →
      ∀ rj ∈ rest, ∀ x ∈ roomMembers st rj,
        x ∈ roomMembers (rest.foldl (toRoomsOuterStep r1) s) r1 := by
  induction rest with
  | nil => intro s _ _ rj hrj; exact absurd hrj (List.not_mem_nil rj)
  | cons rj0 rest2 ih =>
      intro s hkeys hmono rj hrj x hx
      rw [List.foldl_cons]
      cases List.mem_cons.mp hrj with
      | inl heq =>
          subst heq
          apply outer_fold_mono
          by_cases hr : rj = r1
          · exact roomMembers_toRoomsOuterStep_mono r1 s rj x
              (hmono x (by rw [← hr]; exact hx))
          · unfold toRoomsOuterStep
            cases hm : mapGet s.rooms rj with
            | some members =>
                apply inner_fold_adds
                unfold roomMembers at hx
                rw [← hkeys rj hr, hm] at hx
                exact hx
            | none =>
                exfalso
                unfold roomMembers at hx
                rw [← hkeys rj hr, hm] at hx
                exact List.not_mem_nil x hx
      | inr hmem =>
          apply ih (toRoomsOuterStep r1 s rj0)
          · intro k hk
            rw [mapGet_toRoomsOuterStep_ne _ _ _ _ hk]
            exact hkeys k hk
          · intro y hy
            exact roomMembers_toRoomsOuterStep_mono r1 s rj0 y (hmono y hy)
          · exact hmem
          · exact hx

end ToRoomsLemmas

/-! ### Handler chain and client queue lemmas -/

section ChainQueueLemmas

theorem dispatchChain_fold (hs : List HandlerOutcome) :
    ∀ (i : Nat) (res : ChainResult),
      (hs.foldl (fun acc h =>
        let res2 : ChainResult := acc.2
        (acc.1 + 1,
          { invoked := res2.invoked ++ [acc.1]
            errorCalls := res2.errorCalls +
              (match h with | .ok => 0 | .throws => 1) })) (i, res)).2 =
        ⟨res.invoked ++ List.range' i hs.length,
          res.errorCalls + (hs.map errorCost).sum⟩ := by
  induction hs with
  | nil =>
      intro i res
      simp [List.range']
  | cons h t ih =>
      intro i res
      rw [List.foldl_cons, ih]
      have hrange : List.range' i (t.length + 1) = i :: List.range' (i + 1) t.length := by
        simp [List.range']
      simp only [List.length_cons, hrange, List.map_cons, List.sum_cons]
      congr 1
      · simp
      · show res.errorCalls + (match h with | .ok => 0 | .throws => 1) + (t.map errorCost).sum =
          res.errorCalls + (errorCost h + (t.map errorCost).sum)
        cases h
        · simp [errorCost]
        · simp [errorCost]
          omega

theorem dispatchChain_spec (hs : List HandlerOutcome) :
    (dispatchChain hs).invoked = List.range hs.length ∧
      (dispatchChain hs).errorCalls = (hs.map errorCost).sum := by
  unfold dispatchChain
  rw [dispatchChain_fold hs 0 ⟨[], 0⟩]
  constructor
  · simp [List.range_eq_range']
  · simp

theorem flush_all_ok (q : List WSMessage) :
    flushMessageQueue (fun _ => true) q = (q, []) := by
  induction q with
  | nil => rfl
  | cons m rest ih =>
      unfold flushMessageQueue
      simp only [if_true]
      rw [ih]

theorem addToQueue_overflow (maxQueueSize : Nat) (q : List WSMessage) (m : WSMessage)
    (h : maxQueueSize ≤ q.length) : addToQueue maxQueueSize q m = q.tail ++ [m] := by
  unfold addToQueue
  rw [if_pos h]

theorem addToQueue_room (maxQueueSize : Nat) (q : List WSMessage) (m : WSMessage)
    (h : q.length < maxQueueSize) : addToQueue maxQueueSize q m = q ++ [m] := by
  unfold addToQueue
  rw [if_neg (not_le.mpr h)]

end ChainQueueLemmas

/-! ### Facts about the concrete example states -/

section ExampleFacts

theorem insync_exStW : InSync exStW := by
  intro c r
  by_cases hc : c = 0 <;> by_cases hr : r = "r" <;>
    simp [exStW, InSync, connRooms, roomMembers, mapGet, List.find?, hc, hr, Ne.symm]

theorem ner_exStW : NoEmptyRooms exStW := by
  intro r s h
  by_cases hr : r = "r"
  · subst hr
    have : s = [0] := Option.some.inj ((show mapGet exStW.rooms "r" = some [0] from rfl)
      ▸ h).symm
    simp [this]
  · have hnone : mapGet exStW.rooms r = none := by
      simp [exStW, mapGet, List.find?, Ne.symm hr]
    rw [hnone] at h
    exact absurd h (by simp)

theorem wf_exSt2 : WFsc exSt2 := by
  unfold WFsc
  exact ⟨by decide, by decide⟩

end ExampleFacts

/-! ### Claim theorems -/

/-- C1 counterexample: for the registry `exStW` (connection 0 registered
under id "a" and in room "r"), the transport `close` handler removes the
connection from room "r" but leaves it in the primary index, so
`toClients("a")` still targets it — refuting the claim that after the
transition `toClients(its id)` no longer contains the connection; and the
transport `error` handler does not notify the application close handler. -/
theorem claim_C1_counterexample :
    toClients (transportClose exStW 0).1 ["a"] = [0] ∧
      roomMembers (transportClose exStW 0).1 "r" = [] ∧
      (transportError exStW 0).2 = false := by
  decide

/-- C1 (amended): on transport `close` the connection is removed from every
room (the application close handler is notified); on `error` the same room
teardown runs without the close-handler notification; in both cases the
primary index `socketClients` is untouched, so the connection is NOT
removed from the registry by these events. -/
theorem claim_C1 (st : ServerState) (c : CId)
    (hreg : mapGet st.socketClients (connUuid st c) = some c)
    (hInv : InSync st) :
    (transportClose st c).2 = true ∧
      (transportError st c).2 = false ∧
      (transportError st c).1 = (transportClose st c).1 ∧
      ((transportClose st c).1).socketClients = st.socketClients ∧
      (∀ r, c ∉ roomMembers (transportClose st c).1 r) ∧
      connRooms (transportClose st c).1 c = [] := by
  have hp := transportTeardownRooms_purge st c hreg hInv
  exact ⟨rfl, rfl, rfl, socketClients_transportTeardownRooms st c, hp.1, hp.2⟩

/-- Witness for C1 at the concrete state `exStW`. -/
theorem claim_C1_witness :
    (transportClose exStW 0).2 = true ∧
      ((transportClose exStW 0).1).socketClients = exStW.socketClients ∧
      connRooms (transportClose exStW 0).1 0 = [] := by
  have h := claim_C1 exStW 0 (by decide) insync_exStW
  exact ⟨h.1, h.2.2.2.1, h.2.2.2.2.2⟩

/-- C2: for every state satisfying the two-index synchronisation invariant
(`connection.rooms` equals the set of rooms whose index entry contains the
connection), every finite sequence of join/leave operations — invoked on
the connection itself or through a link — preserves the invariant; since
the sequence is arbitrary, the invariant holds after every operation of any
such sequence. -/
theorem claim_C2 (st : ServerState) (ops : List JLOp) (h : InSync st) :
    InSync (applyOps st ops) := by
  unfold applyOps
  induction ops generalizing st with
  | nil => exact h
  | cons op rest ih =>
      rw [List.foldl_cons]
      exact ih (applyOp st op) (insync_applyOp st op h)

/-- Witness for C2 at the concrete state `exStW`. -/
theorem claim_C2_witness :
    InSync (applyOps exStW
      [JLOp.connJoin 0 "s", JLOp.linkJoin [0] "t", JLOp.connLeave 0 "r",
        JLOp.linkLeave [0] "s", JLOp.linkAdd 0 "u"]) :=
  claim_C2 exStW _ insync_exStW

/-- C3: the claim describes the intended rename semantics, but the code
calls `setClientId(this.uuid, id)` against the parameter order
`setClientId(newClientId, oldClientId)`, so for a connection registered as
"a", `setId("b")` looks up "b" (absent), leaves the primary index bound to
"a", and only updates the local uuid: `toClients("a")` still returns the
connection and `toClients("b")` is empty — the opposite of the claim. -/
theorem claim_C3_codebug :
    connUuid (conn_setId exSt1 0 "b") 0 = "b" ∧
      toClients (conn_setId exSt1 0 "b") ["a"] = [0] ∧
      toClients (conn_setId exSt1 0 "b") ["b"] = [] := by
  decide

/-- C4 counterexample: with handlers `[h1, h2, h3]` where `h1` throws, the
dispatch loop of `onS` (try/catch inside the for-loop) still invokes `h2`
and `h3` — refuting the claim that they are not invoked — while the error
handler is called exactly once. -/
theorem claim_C4_counterexample :
    (dispatchChain [HandlerOutcome.throws, HandlerOutcome.ok, HandlerOutcome.ok]).invoked
        = [0, 1, 2] ∧
      (dispatchChain [HandlerOutcome.throws, HandlerOutcome.ok,
        HandlerOutcome.ok]).errorCalls = 1 ∧
      ¬ (1 ∉ (dispatchChain [HandlerOutcome.throws, HandlerOutcome.ok,
          HandlerOutcome.ok]).invoked ∧
         2 ∉ (dispatchChain [HandlerOutcome.throws, HandlerOutcome.ok,
          HandlerOutcome.ok]).invoked) := by
  decide

/-- C4 (amended): for any chain of handlers registered via `onS`, one
delivery invokes every handler in registration order (a throwing handler
does not abort the remaining chain), and the application error handler is
called exactly once per throwing handler. -/
theorem claim_C4 (hs : List HandlerOutcome) :
    (dispatchChain hs).invoked = List.range hs.length ∧
      (dispatchChain hs).errorCalls = (hs.map errorCost).sum :=
  dispatchChain_spec hs

/-- C5: under the heartbeat sweep, (a) a registered connection whose alive
flag is false at sweep time is removed from the registry by the end of that
sweep; (b) a registered connection whose alive flag is true survives the
sweep, is sent a ping, and its alive flag is reset to false; (c) a
connection that pongs within every interval is never closed by the sweep
alone, over any number of intervals. -/
theorem claim_C5 :
    (∀ (st : ServerState) (u : String) (c : CId), WFsc st →
        mapGet st.socketClients u = some c → connAlive st c = false →
        mapGet ((sweep st).1).socketClients u = none) ∧
      (∀ (st : ServerState) (u : String) (c : CId), WFsc st →
        mapGet st.socketClients u = some c → connAlive st c = true →
        mapGet ((sweep st).1).socketClients u = some c ∧
          connAlive (sweep st).1 c = false ∧ c ∈ (sweep st).2) ∧
      (∀ (n : Nat) (st : ServerState) (u : String) (c : CId), WFsc st →
        mapGet st.socketClients u = some c →
        mapGet (pongSweepIter c n st).socketClients u = some c) :=
  ⟨sweep_removes_dead, sweep_keeps_alive,
    fun n st u c hwf hreg => pongSweepIter_keeps c n st u hwf hreg⟩

/-- Witness for C5 at the concrete state `exSt2` (connection 0 dead,
connection 1 alive). -/
theorem claim_C5_witness :
    mapGet ((sweep exSt2).1).socketClients "a" = none ∧
      (mapGet ((sweep exSt2).1).socketClients "b" = some 1 ∧
        connAlive (sweep exSt2).1 1 = false ∧ 1 ∈ (sweep exSt2).2) ∧
      mapGet (pongSweepIter 1 3 exSt2).socketClients "b" = some 1 :=
  ⟨claim_C5.1 exSt2 "a" 0 wf_exSt2 (by decide) (by decide),
    claim_C5.2.1 exSt2 "b" 1 wf_exSt2 (by decide) (by decide),
    claim_C5.2.2 3 exSt2 "b" 1 wf_exSt2 (by decide)⟩

/-- C6 counterexample: with a custom message decoder supplied, the literal
payload "pong" still short-circuits to set the alive flag — the decoder is
not consulted — refuting the claim that the decoder takes precedence for
every incoming payload. -/
theorem claim_C6_counterexample :
    handleMessage (some (fun s => DecodeOutcome.msg "x" s))
        (fun _ => ParsedJson.parseError) "pong" = MessageResult.aliveSet ∧
      handleMessage (some (fun s => DecodeOutcome.msg "x" s))
        (fun _ => ParsedJson.parseError) "pong" ≠ MessageResult.emit "x" "pong" := by
  decide

/-- C6 (amended): the literal payload "pong" always short-circuits (sets
alive and stops processing) whether or not a custom decoder is supplied;
for every other payload a supplied custom decoder takes precedence: its
`{event, data}` result is dispatched, and a throw is routed to the error
handler. -/
theorem claim_C6 :
    (∀ (d : String → DecodeOutcome) (parse : String → ParsedJson) (payload : String),
        payload ≠ "pong" →
        handleMessage (some d) parse payload =
          (match d payload with
           | .msg e dat => MessageResult.emit e dat
           | .throws => MessageResult.errorHandled)) ∧
      (∀ (d : Option (String → DecodeOutcome)) (parse : String → ParsedJson),
        handleMessage d parse "pong" = MessageResult.aliveSet) := by
  constructor
  · intro d parse payload hp
    unfold handleMessage
    rw [if_neg hp]
  · intro d parse
    unfold handleMessage
    rw [if_pos rfl]

/-- Witness for C6 on concrete payloads. -/
theorem claim_C6_witness :
    handleMessage (some (fun s => DecodeOutcome.msg "e" s))
        (fun _ => ParsedJson.falsy) "hello" = MessageResult.emit "e" "hello" ∧
      handleMessage none (fun _ => ParsedJson.falsy) "pong" = MessageResult.aliveSet :=
  ⟨claim_C6.1 (fun s => DecodeOutcome.msg "e" s) (fun _ => ParsedJson.falsy) "hello"
      (by decide),
    claim_C6.2 none (fun _ => ParsedJson.falsy)⟩

/-- C7 counterexample: `toClients("missing")` yields a link over zero
connections, and its `join("r")` creates the room entry for "r" and then
adds no member, leaving a persisting empty-member room entry — refuting the
claim that no operation leaves one behind. -/
theorem claim_C7_counterexample :
    isExistRoom (link_join exSt1 (toClients exSt1 ["missing"]) "r") "r" = true ∧
      roomMembers (link_join exSt1 (toClients exSt1 ["missing"]) "r") "r" = [] := by
  decide

/-- C7 (amended): every room-mutating operation except `Link.join`
preserves the no-empty-rooms invariant (`Link.join` can create a persisting
empty room entry when its target set is empty); and after a room's last
member leaves, `isExistRoom` returns false. -/
theorem claim_C7 :
    (∀ (st : ServerState) (c : CId) (r : String), NoEmptyRooms st →
        NoEmptyRooms (conn_join st c r)) ∧
      (∀ (st : ServerState) (c : CId) (r : String), NoEmptyRooms st →
        NoEmptyRooms (conn_leave st c r)) ∧
      (∀ (st : ServerState) (c : CId) (r : String), NoEmptyRooms st →
        NoEmptyRooms (link_addClientToRoom st c r)) ∧
      (∀ (st : ServerState) (c : CId) (rs : List String), NoEmptyRooms st →
        NoEmptyRooms (link_removeClientInRoom st c rs)) ∧
      (∀ (st : ServerState) (ts : List CId) (r : String), NoEmptyRooms st →
        NoEmptyRooms (link_leave st ts r)) ∧
      (∀ (st : ServerState) (c : CId), NoEmptyRooms st →
        NoEmptyRooms (clientClose st c)) ∧
      (∀ (st : ServerState) (c : CId), NoEmptyRooms st →
        NoEmptyRooms ((transportClose st c).1)) ∧
      (∀ (st : ServerState) (c : CId) (r : String), mapGet st.rooms r = some [c] →
        isExistRoom (conn_leave st c r) r = false) :=
  ⟨ner_conn_join, ner_conn_leave, ner_linkAdd, ner_link_removeClientInRoom,
    ner_link_leave, ner_clientClose,
    fun st c h => ner_transportTeardownRooms st c h, isExistRoom_conn_leave_last⟩

/-- Witness for C7 at the concrete state `exStW`. -/
theorem claim_C7_witness :
    NoEmptyRooms (conn_join exStW 1 "s") ∧
      isExistRoom (conn_leave exStW 0 "r") "r" = false :=
  ⟨claim_C7.1 exStW 1 "s" ner_exStW,
    claim_C7.2.2.2.2.2.2.2 exStW 0 "r" (by decide)⟩

/-- C8 counterexample: a successful authenticator run (returning true)
leads to a `connection` event carrying only the transport and the parsed
query, and the created connection's `authData` is the handler bundle — not
the authenticator's return value — refuting the claim that the return
value becomes the connection's `authData`. -/
theorem claim_C8_counterexample :
    upgradeHandler (some (fun _ => AuthOutcome.value true)) (fun s => s) "u" 7 =
        UpgradeResult.connectionEvent 7 "u" ∧
      getAuthData (connectedHandler 7 "u") = AuthDataVal.handlerBundle ∧
      getAuthData (connectedHandler 7 "u") ≠ AuthDataVal.fromAuth true := by
  decide

/-- C8 (amended): a throwing or false-returning authenticator yields the
unauthorized response with no connection created; a true-returning
authenticator completes the upgrade and the emitted `connection` event
carries the raw transport and the parsed query; the created connection's
`authData` is always the handler bundle, independent of the
authenticator. -/
theorem claim_C8 :
    (∀ (a : String → AuthOutcome) (pq : String → String) (u : String) (t : CId),
        a u = AuthOutcome.throws →
        upgradeHandler (some a) pq u t = UpgradeResult.unauthorized) ∧
      (∀ (a : String → AuthOutcome) (pq : String → String) (u : String) (t : CId),
        a u = AuthOutcome.value false →
        upgradeHandler (some a) pq u t = UpgradeResult.unauthorized) ∧
      (∀ (a : String → AuthOutcome) (pq : String → String) (u : String) (t : CId),
        a u = AuthOutcome.value true →
        upgradeHandler (some a) pq u t = UpgradeResult.connectionEvent t (pq u)) ∧
      (∀ (t : CId) (q : String),
        getAuthData (connectedHandler t q) = AuthDataVal.handlerBundle) := by
  refine ⟨?_, ?_, ?_, fun t q => rfl⟩
  · intro a pq u t h
    simp [upgradeHandler, h]
  · intro a pq u t h
    simp [upgradeHandler, h]
  · intro a pq u t h
    simp [upgradeHandler, h]

/-- Witness for C8 on concrete requests. -/
theorem claim_C8_witness :
    upgradeHandler (some (fun _ => AuthOutcome.throws)) (fun s => s) "q" 3 =
        UpgradeResult.unauthorized ∧
      getAuthData (connectedHandler 3 "q") = AuthDataVal.handlerBundle :=
  ⟨claim_C8.1 (fun _ => AuthOutcome.throws) (fun s => s) "q" 3 rfl,
    claim_C8.2.2.2 3 "q"⟩

/-- C9: with `maxQueueSize = 2`, emitting three events while disconnected
retains exactly events 2 and 3 (event 1 evicted as oldest), and the
reconnect flush sends event 2 then event 3; in general, on overflow the
oldest queued entry is evicted in favour of the newest, insertion order is
preserved, and a fully successful flush sends the whole queue in FIFO
order. -/
theorem claim_C9 :
    (addToQueue 2 (addToQueue 2 (addToQueue 2 [] ⟨"e1", 1⟩) ⟨"e2", 2⟩) ⟨"e3", 3⟩ =
        [⟨"e2", 2⟩, ⟨"e3", 3⟩] ∧
      flushMessageQueue (fun _ => true)
          (addToQueue 2 (addToQueue 2 (addToQueue 2 [] ⟨"e1", 1⟩) ⟨"e2", 2⟩) ⟨"e3", 3⟩) =
        ([⟨"e2", 2⟩, ⟨"e3", 3⟩], [])) ∧
      (∀ (maxQ : Nat) (q : List WSMessage) (m : WSMessage), maxQ ≤ q.length →
        addToQueue maxQ q m = q.tail ++ [m]) ∧
      (∀ (maxQ : Nat) (q : List WSMessage) (m : WSMessage), q.length < maxQ →
        addToQueue maxQ q m = q ++ [m]) ∧
      (∀ q : List WSMessage, flushMessageQueue (fun _ => true) q = (q, [])) :=
  ⟨by decide, addToQueue_overflow, addToQueue_room, flush_all_ok⟩

/-- Witness for C9 on concrete queues. -/
theorem claim_C9_witness :
    addToQueue 2 [⟨"e2", 2⟩, ⟨"e3", 3⟩] ⟨"e4", 4⟩ = [⟨"e3", 3⟩, ⟨"e4", 4⟩] ∧
      addToQueue 2 [⟨"e2", 2⟩] ⟨"e3", 3⟩ = [⟨"e2", 2⟩, ⟨"e3", 3⟩] ∧
      flushMessageQueue (fun _ => true) [⟨"a", 1⟩] = ([⟨"a", 1⟩], []) :=
  ⟨claim_C9.2.1 2 [⟨"e2", 2⟩, ⟨"e3", 3⟩] ⟨"e4", 4⟩ (by decide),
    claim_C9.2.2.1 2 [⟨"e2", 2⟩] ⟨"e3", 3⟩ (by decide),
    claim_C9.2.2.2 [⟨"a", 1⟩]⟩

/-- C10: when the first room of `toRooms(r1, ..., rn)` exists, constructing
the link mutates the room index: every member of the remaining rooms is
inserted into r1's member set, and the link's target collection is exactly
the (mutated) index entry of r1. -/
theorem claim_C10 (st : ServerState) (r1 : String) (rest : List String)
    (h : (mapGet st.rooms r1).isSome) :
    (∀ rj ∈ rest, ∀ x ∈ roomMembers st rj,
        x ∈ roomMembers (toRooms st (r1 :: rest)).2 r1) ∧
      (toRooms st (r1 :: rest)).1 = roomMembers (toRooms st (r1 :: rest)).2 r1 := by
  rw [toRooms_eq_some st r1 rest h]
  constructor
  · intro rj hrj x hx
    exact outer_fold_adds st r1 rest st (fun k _ => rfl) (fun y hy => hy) rj hrj x hx
  · rfl

/-- Witness for C10 at the concrete state `exSt3` (room "ra" holds 0, room
"rb" holds 1): after `toRooms("ra", "rb")`, connection 1 is a member of
"ra" in the index. -/
theorem claim_C10_witness :
    1 ∈ roomMembers (toRooms exSt3 ["ra", "rb"]).2 "ra" ∧
      (toRooms exSt3 ["ra", "rb"]).1 =
        roomMembers (toRooms exSt3 ["ra", "rb"]).2 "ra" := by
  have h := claim_C10 exSt3 "ra" ["rb"] (by decide)
  exact ⟨h.1 "rb" (by decide) 1 (by decide), h.2⟩

end WS

